import Mathlib

/-!
Verification development for the score-aggregation and report-rendering core
of the hospitation-form tool (src/app.py).

Python text is modelled as a list of Unicode code points (`Str := List Nat`),
Python dicts as insertion-ordered association lists, Python float values as
the decimal numbers their repr prints (`PyFloat`, mantissa over a power of
ten), and Python numeric arithmetic on scores as exact rational arithmetic.
Fallible code (KeyError raised by a dict subscript) is modelled with
`Except`.  The binary containers produced by the external libraries
python-docx and fpdf are abstracted to their text content: a docx document
is its list of blocks (headings, paragraphs, tables) and a PDF is the list
of rendered text lines followed by the latin-1 byte encoding that
src/app.py line 301 applies.  The JSON exporter is modelled down to the
bytes: a JSON value type, the rendering of json.dumps with indent 2 and
ensure_ascii False, a parser, and a UTF-8 codec.
-/

/-- Python strings as sequences of Unicode code points. -/
abbrev Str := List Nat

/-- Embed a Lean string literal as a code-point sequence. -/
def strLit (s : String) : Str := s.toList.map Char.toNat

/-- First-match association-list lookup, modelling Python dict lookup
(record dicts are built with unique keys). -/
def alookup {α : Type} (l : List (Str × α)) (k : Str) : Option α :=
  match l with
  | [] => none
  | (k₀, v) :: t => if k₀ = k then some v else alookup t k

/-- Association-list lookup with Int keys (for the AUTO_COMMENTS dict). -/
def ilookup {α : Type} (l : List (Int × α)) (k : Int) : Option α :=
  match l with
  | [] => none
  | (k₀, v) :: t => if k₀ = k then some v else ilookup t k

/-- Boolean prefix test on code-point lists. -/
def isPrefixList : List Nat → List Nat → Bool
  | [], _ => true
  | _ :: _, [] => false
  | a :: p, b :: l => a == b && isPrefixList p l

/-- Boolean contiguous-sublist test on code-point lists. -/
def isSubList (p : List Nat) : List Nat → Bool
  | [] => isPrefixList p []
  | b :: l => isPrefixList p (b :: l) || isSubList p l

/-- Effectful map over a list in the Except monad, mirroring a Python for
loop that raises on the first failing element. -/
def exMapM {ε α β : Type} (f : α → Except ε β) : List α → Except ε (List β)
  | [] => .ok []
  | a :: l =>
    match f a with
    | .error e => .error e
    | .ok b =>
      match exMapM f l with
      | .error e => .error e
      | .ok bs => .ok (b :: bs)

/-- Turn an optional catalog lookup into an Except, modelling a Python dict
subscript that raises KeyError on a missing key. -/
def getOrRaise {ε α : Type} (o : Option α) (e : ε) : Except ε α :=
  match o with
  | some v => .ok v
  | none => .error e

/-- Fueled digit renderer (the fuel only bounds the recursion depth so the
definition is structural and evaluates inside the kernel). -/
def natDigitsAux : Nat → Nat → Str
  | 0, _ => []
  | fuel + 1, n =>
    if n < 10 then [48 + n] else natDigitsAux fuel (n / 10) ++ [48 + n % 10]

/-- Decimal digits (as code points) of a natural number, most significant
first. -/
def natDigits (n : Nat) : Str := natDigitsAux (n + 1) n

/-- Python str(int): decimal rendering with a leading minus sign for
negative values. -/
def intToStr (n : Int) : Str :=
  if n < 0 then 45 :: natDigits n.natAbs else natDigits n.natAbs

/-- Zero-padded decimal rendering of `f` to exactly `k` digits (assuming
`f < 10 ^ k`). -/
def padDigits (k : Nat) (f : Nat) : Str :=
  List.replicate (k - (natDigits f).length) 48 ++ natDigits f

/-- Python float values as modelled by this development: the finite decimal
number `m / 10 ^ k` that the repr of the float prints (repr always prints
at least one fraction digit, so faithful values have `1 ≤ k`). -/
structure PyFloat where
  m : Int
  k : Nat
deriving DecidableEq, Repr

/-- The exact rational value of a modelled float. -/
def PyFloat.val (w : PyFloat) : ℚ := (w.m : ℚ) / (10 : ℚ) ^ w.k

/-- Decimal rendering of a modelled float: sign, integer digits, point,
`k` zero-padded fraction digits. -/
def decToStr (m : Int) (k : Nat) : Str :=
  (if m < 0 then [45] else []) ++
    natDigits (m.natAbs / 10 ^ k) ++ [46] ++ padDigits k (m.natAbs % 10 ^ k)

/-- Round half to even, modelling the rounding of Python format .2f. -/
def roundHE (q : ℚ) : Int :=
  let f := ⌊q⌋
  if q - f < 1 / 2 then f
  else if q - f > 1 / 2 then f + 1
  else if f % 2 = 0 then f else f + 1

/-- Python format string .2f: two fraction digits, half-even rounding. -/
def format2 (q : ℚ) : Str :=
  let n := roundHE (q * 100)
  (if n < 0 then [45] else []) ++
    natDigits (n.natAbs / 100) ++ [46] ++ padDigits 2 (n.natAbs % 100)

/-- Concatenate a list of strings with a separator, modelling
Python str.join. -/
def joinSep (sep : Str) : List Str → Str
  | [] => []
  | [s] => s
  | s :: t => s ++ sep ++ joinSep sep t

-- ----------------------------- Datenbasis (src/app.py lines 23-80) ------

/-- One catalog module: title and ordered criteria (id, descriptive text). -/
structure CatModule where
  title : Str
  criteria : List (Str × Str)
deriving DecidableEq, Repr

/-- The BLI_DATA rubric catalog of src/app.py lines 23-64, as an ordered
association list from module id to module data. -/
def BLI_DATA : List (Str × CatModule) :=
  [ (strLit "M1",
     { title := strLit "Schülerinnen und Schüler aktivieren",
       criteria :=
        [ (strLit "1.1", strLit "Kompetenzziele sind für Lernende transparent."),
          (strLit "1.2", strLit "Lehrkraft ist sprachbildend (Vorbildfunktion Deutsch)."),
          (strLit "1.3", strLit "Aktive Beteiligung der Lernenden wird gefördert."),
          (strLit "1.4", strLit "Unterricht unterstützt selbstständiges Lernen."),
          (strLit "1.5", strLit "Reflexion der Lernprozesse wird angeleitet.") ] }),
    (strLit "M2",
     { title := strLit "Kompetenzen entwickeln",
       criteria :=
        [ (strLit "2.1", strLit "Fachlicher Kompetenzzuwachs wird ermöglicht."),
          (strLit "2.2", strLit "Medienkompetenz wird gefördert (zielgerichteter Medieneinsatz)."),
          (strLit "2.3", strLit "Methodenkompetenz wird aufgebaut und angewandt."),
          (strLit "2.4", strLit "Deutschkompetenz wird gezielt entwickelt."),
          (strLit "2.5", strLit "Fachsprache im DFU wird funktional genutzt.") ] }),
    (strLit "M3",
     { title := strLit "Unterricht lernwirksam gestalten",
       criteria :=
        [ (strLit "3.1", strLit "Stundenablauf ist transparent und klar strukturiert."),
          (strLit "3.2", strLit "Medien/Arbeitsmittel werden zielgerichtet eingesetzt."),
          (strLit "3.3", strLit "Lehrkraft moderiert und steuert Lernprozesse."),
          (strLit "3.4", strLit "Heterogenität wird didaktisch berücksichtigt."),
          (strLit "3.5", strLit "Personalisiertes/individualisiertes Lernen wird gefördert.") ] }),
    (strLit "M4",
     { title := strLit "Lernklima förderlich gestalten",
       criteria :=
        [ (strLit "4.1", strLit "Sozial kompetentes, wertschätzendes Miteinander."),
          (strLit "4.2", strLit "Kooperative Lernarrangements unterstützen Soziallernen."),
          (strLit "4.3", strLit "Differenzierte, kriteriengeleitete Rückmeldungen."),
          (strLit "4.4", strLit "Positive Fehlerkultur ist sichtbar."),
          (strLit "4.5", strLit "Lernumgebung unterstützt Lernaktivitäten.") ] }) ]

/-- The AUTO_COMMENTS dict of src/app.py lines 74-80: rating to suggested
comment text. -/
def AUTO_COMMENTS : List (Int × Str) :=
  [ (0, strLit "Bei der Hospitation war dieses Kriterium nicht erkennbar. Mögliche Ursache: Situations-/Phasenabhängigkeit."),
    (1, strLit "Ansatzpunkte sind erkennbar. Eine Fokussierung auf klare Routinen/Transparenz könnte die Wirksamkeit erhöhen."),
    (2, strLit "Grundlegend vorhanden. Durch Verbindlichkeit/Beispiele/Visualisierung weiter stärken."),
    (3, strLit "Überwiegend gut umgesetzt. Punktuell lässt sich die Wirkung noch durch Schüleraktivierung vertiefen."),
    (4, strLit "Sehr überzeugend umgesetzt; dient als Good-Practice-Beispiel.") ]

/-- AUTO_COMMENTS.get(rating, default), src/app.py line 389: Python dict
.get with a default value — it never raises. -/
def AUTO_COMMENTS_get (rating : Int) (default : Str) : Str :=
  match ilookup AUTO_COMMENTS rating with
  | some s => s
  | none => default

-- ----------------------------- Dataclasses (src/app.py lines 94-117) ----

/-- Dataclass CriterionResult: rating (int, 0 by default) and comment. -/
structure CriterionResult where
  rating : Int
  comment : Str
deriving DecidableEq, Repr

/-- Dataclass ModuleResult: module key and criteria dict in insertion
order. -/
structure ModuleResult where
  module_key : Str
  criteria : List (Str × CriterionResult)
deriving DecidableEq, Repr

/-- Dataclass ObservationForm: the full record handed to the aggregation
and render functions. -/
structure ObservationForm where
  date : Str
  colleague : Str
  subject : Str
  grade : Str
  topic : Str
  observer : Str
  school : Str
  modules : List (Str × ModuleResult)
  strengths : Str
  next_steps : Str
  profile_focus : List Str
  weights : List (Str × PyFloat)
deriving DecidableEq, Repr

/-- form.weights.get(mk, 1.0) as used in compute_scores. -/
def weightOf (form : ObservationForm) (mk : Str) : ℚ :=
  match alookup form.weights mk with
  | some w => w.val
  | none => 1

-- ----------------------------- compute_scores (src/app.py 132-143) ------

/-- The loop body of compute_scores: extend the per-module list and the
weighted-sum / weight-total accumulators by one module entry. -/
def scoresStep (form : ObservationForm) (acc : List (Str × ℚ) × ℚ × ℚ)
    (entry : Str × ModuleResult) : List (Str × ℚ) × ℚ × ℚ :=
  let ratings := entry.2.criteria.map (fun c => c.2.rating)
  let avg : ℚ := if ratings.length = 0 then 0
    else ((ratings.sum : Int) : ℚ) / (ratings.length : ℚ)
  let w := weightOf form entry.1
  (acc.1 ++ [(entry.1, avg)], acc.2.1 + avg * w, acc.2.2 + w)

/-- compute_scores (src/app.py lines 132-143): per-module averages and the
weighted overall score, with 0.0 when the weight total is zero. -/
def compute_scores (form : ObservationForm) : List (Str × ℚ) × ℚ :=
  let r := form.modules.foldl (scoresStep form) ([], 0, 0)
  let overall : ℚ := if r.2.2 = 0 then 0 else r.2.1 / r.2.2
  (r.1, overall)

/-- The average of one module as compute_scores produces it: mean of the
criterion ratings, 0 when the module has no criteria. -/
def moduleAvg (mod : ModuleResult) : ℚ :=
  let ratings := mod.criteria.map (fun c => c.2.rating)
  if ratings.length = 0 then 0
  else ((ratings.sum : Int) : ℚ) / (ratings.length : ℚ)

-- ----------------------------- Export error model ------------------------

/-- The failure mode of the export functions: a Python KeyError raised by a
dict subscript into the BLI_DATA catalog.  In the terms of the design, a
record module id absent from the catalog surfaces as this error
(InvalidRecord); an unknown criterion id surfaces the same way. -/
inductive ExportError where
  | keyError (key : Str)
deriving DecidableEq, Repr

/-- Python `s or d` on strings: `d` when `s` is empty (falsy), else `s`. -/
def pyOr (s d : Str) : Str := if s = [] then d else s

-- ----------------------------- export_docx (src/app.py 145-211) ---------

/-- Content model of a python-docx document: the binary docx container the
external library builds is abstracted to its ordered blocks. -/
inductive DocxBlock where
  | heading (level : Nat) (text : Str)
  | paragraph (text : Str)
  | table (header : List Str) (rows : List (List Str))
deriving DecidableEq, Repr

/-- The metadata blocks of export_docx (src/app.py lines 154-177): title
heading, meta paragraphs (runs concatenated), optional school and
profile-focus paragraphs. -/
def docxMetaBlocks (form : ObservationForm) : List DocxBlock :=
  [ DocxBlock.heading 1 (strLit "Hospitationsbogen – BLI 3.0"),
    DocxBlock.paragraph (strLit "Datum: " ++ form.date ++ strLit "    " ++
      strLit "Kolleg*in: " ++ form.colleague ++ strLit "    " ++
      strLit "Beobachter*in: " ++ form.observer),
    DocxBlock.paragraph (strLit "Fach/Klasse/Thema: " ++ form.subject ++
      strLit " / " ++ form.grade ++ strLit " / " ++ form.topic) ] ++
  (if form.school = [] then []
   else [DocxBlock.paragraph (strLit "Schule: " ++ form.school)]) ++
  (if form.profile_focus = [] then []
   else [DocxBlock.paragraph (strLit "Profil-Fokus: " ++
          joinSep (strLit ", ") form.profile_focus)])

/-- One table row of export_docx (src/app.py lines 188-192): criterion id
and text, rating, comment cell (empty when the comment is empty). -/
def docxRow (cm : CatModule) (c : Str × CriterionResult) :
    Except ExportError (List Str) :=
  match alookup cm.criteria c.1 with
  | none => .error (ExportError.keyError c.1)
  | some text => .ok [c.1 ++ [32] ++ text, intToStr c.2.rating, pyOr c.2.comment []]

/-- One module section of export_docx (src/app.py lines 180-194): heading,
three-column table with one row per criterion, blank paragraph.  The
catalog subscripts raise on unknown ids. -/
def docxModuleBlocks (p : Str × ModuleResult) : Except ExportError (List DocxBlock) :=
  match alookup BLI_DATA p.1 with
  | none => .error (ExportError.keyError p.1)
  | some cm =>
    match exMapM (docxRow cm) p.2.criteria with
    | .error e => .error e
    | .ok rows =>
      .ok [ DocxBlock.heading 2 (p.1 ++ strLit " – " ++ cm.title),
            DocxBlock.table
              [strLit "Kriterium", strLit "Bewertung (0–4)", strLit "Kommentar/Hinweis"]
              rows,
            DocxBlock.paragraph [] ]

/-- The score summary blocks of export_docx (src/app.py lines 203-207). -/
def docxScoreBlocks (form : ObservationForm) : List DocxBlock :=
  let ps := compute_scores form
  DocxBlock.heading 2 (strLit "Zusammenfassung (Scores)") ::
    ps.1.map (fun p => DocxBlock.paragraph
      (p.1 ++ strLit ": " ++ format2 p.2 ++ strLit " / 4")) ++
    [DocxBlock.paragraph (strLit "Gesamt (gewichtet): " ++ format2 ps.2 ++ strLit " / 4")]

/-- export_docx (src/app.py lines 145-211), modelled at document-content
level. -/
def export_docx (form : ObservationForm) : Except ExportError (List DocxBlock) :=
  match exMapM docxModuleBlocks form.modules with
  | .error e => .error e
  | .ok mbs =>
    .ok (docxMetaBlocks form ++ mbs.flatten ++
      [ DocxBlock.heading 2 (strLit "Stärken"),
        DocxBlock.paragraph (pyOr form.strengths (strLit "-")),
        DocxBlock.heading 2 (strLit "Nächste Schritte (konkret, terminiert)"),
        DocxBlock.paragraph (pyOr form.next_steps (strLit "-")) ] ++
      docxScoreBlocks form)

-- ----------------------------- export_pdf (src/app.py 241-301) ----------

/-- The lines rendered for one criterion by export_pdf (src/app.py lines
270-275): criterion text, rating line, and a comment line only when the
comment is non-empty. -/
def pdfCriterionLines (text : Str) (c : Str × CriterionResult) : List Str :=
  [ c.1 ++ [32] ++ text,
    strLit "  Bewertung: " ++ intToStr c.2.rating ++ strLit "/4" ] ++
  (if c.2.comment = [] then [] else [strLit "  Kommentar: " ++ c.2.comment])

/-- Criterion lines of export_pdf with the catalog text lookup of line
271. -/
def pdfCriterionBlock (cm : CatModule) (c : Str × CriterionResult) :
    Except ExportError (List Str) :=
  match alookup cm.criteria c.1 with
  | none => .error (ExportError.keyError c.1)
  | some text => .ok (pdfCriterionLines text c)

/-- The lines rendered for one module by export_pdf (src/app.py lines
266-276). -/
def pdfModuleLines (p : Str × ModuleResult) : Except ExportError (List Str) :=
  match alookup BLI_DATA p.1 with
  | none => .error (ExportError.keyError p.1)
  | some cm =>
    match exMapM (pdfCriterionBlock cm) p.2.criteria with
    | .error e => .error e
    | .ok crit => .ok ((p.1 ++ strLit " – " ++ cm.title) :: crit.flatten)

/-- The metadata lines of export_pdf (src/app.py lines 255-262). -/
def pdfMetaLines (form : ObservationForm) : List Str :=
  [ strLit "Datum: " ++ form.date,
    strLit "Kolleg*in: " ++ form.colleague,
    strLit "Beobachter*in: " ++ form.observer,
    strLit "Fach/Klasse/Thema: " ++ form.subject ++ strLit " / " ++
      form.grade ++ strLit " / " ++ form.topic ] ++
  (if form.school = [] then [] else [strLit "Schule: " ++ form.school]) ++
  (if form.profile_focus = [] then []
   else [strLit "Profil-Fokus: " ++ joinSep (strLit ", ") form.profile_focus])

/-- The score lines of export_pdf (src/app.py lines 292-298). -/
def pdfScoreLines (form : ObservationForm) : List Str :=
  let ps := compute_scores form
  strLit "Zusammenfassung (Scores)" ::
    ps.1.map (fun p => p.1 ++ strLit ": " ++ format2 p.2 ++ strLit " / 4") ++
    [strLit "Gesamt (gewichtet): " ++ format2 ps.2 ++ strLit " / 4"]

/-- All text lines rendered by export_pdf, in order (title cell first, then
the multi_cell lines of src/app.py lines 251-298). -/
def pdfTexts (form : ObservationForm) : Except ExportError (List Str) :=
  match exMapM pdfModuleLines form.modules with
  | .error e => .error e
  | .ok mls =>
    .ok (strLit "Hospitationsbogen – BLI 3.0" ::
      (pdfMetaLines form ++ mls.flatten ++
      [ strLit "Stärken", pyOr form.strengths (strLit "-"),
        strLit "Nächste Schritte (konkret, terminiert)",
        pyOr form.next_steps (strLit "-") ] ++
      pdfScoreLines form))

/-- Python bytes.encode with encoding latin-1 and errors ignore: code
points above 255 are silently dropped (src/app.py line 301). -/
def latin1Ignore (s : Str) : List Nat := s.filter (fun c => c < 256)

/-- export_pdf (src/app.py lines 241-301), modelled at text-content level:
the PDF container built by the external fpdf library is abstracted to the
newline-joined rendered text, to which the final latin-1/ignore encoding of
line 301 is applied.  The code always uses the built-in Helvetica font;
there is no Unicode-font load and no transliteration anywhere. -/
def export_pdf (form : ObservationForm) : Except ExportError (List Nat) :=
  (pdfTexts form).map (fun ls => latin1Ignore (joinSep [10] ls))

-- --------------- Spec-modelled transliteration (for claim C2) -----------

/-- Modelled from the spec: the documented transliteration substitution set
of spec section 4.3 (ä to ae, ö to oe, ü to ue, Ä to Ae, Ö to Oe, Ü to Ue,
ß to ss, dashes to a plain minus, typographic double and single quotes to
plain quotes).  This table exists only in the spec; src/app.py contains no
transliteration. -/
def specTranslitChar (c : Nat) : Str :=
  if c = 228 then strLit "ae"
  else if c = 246 then strLit "oe"
  else if c = 252 then strLit "ue"
  else if c = 196 then strLit "Ae"
  else if c = 214 then strLit "Oe"
  else if c = 220 then strLit "Ue"
  else if c = 223 then strLit "ss"
  else if c = 8211 ∨ c = 8212 then [45]
  else if c = 8222 ∨ c = 8220 then [34]
  else if c = 8218 ∨ c = 8217 then [39]
  else [c]

/-- Modelled from the spec: transliteration applied to a whole string. -/
def specTranslit (s : Str) : Str := s.foldr (fun c acc => specTranslitChar c ++ acc) []

-- ----------------------------- JSON values ------------------------------

/-- JSON values as produced by export_json: strings, Python ints, Python
floats in their decimal form (mantissa, fraction-digit count), arrays and
insertion-ordered objects. -/
inductive JValue where
  | jstr (s : Str)
  | jint (n : Int)
  | jdec (m : Int) (k : Nat)
  | jarr (xs : List JValue)
  | jobj (fields : List (Str × JValue))

-- ----------------------------- export_json (src/app.py 213-239) ---------

/-- One criterion entry of the export_json data dict (src/app.py lines
228-232): text from the catalog, rating, comment. -/
def criterionJson (cm : CatModule) (c : Str × CriterionResult) :
    Except ExportError (Str × JValue) :=
  match alookup cm.criteria c.1 with
  | none => .error (ExportError.keyError c.1)
  | some text =>
    .ok (c.1, JValue.jobj
      [ (strLit "text", JValue.jstr text),
        (strLit "rating", JValue.jint c.2.rating),
        (strLit "comment", JValue.jstr c.2.comment) ])

/-- One module entry of the export_json data dict (src/app.py lines
225-234): title from the catalog and the criteria object. -/
def moduleJson (p : Str × ModuleResult) : Except ExportError (Str × JValue) :=
  match alookup BLI_DATA p.1 with
  | none => .error (ExportError.keyError p.1)
  | some cm =>
    match exMapM (criterionJson cm) p.2.criteria with
    | .error e => .error e
    | .ok crits =>
      .ok (p.1, JValue.jobj
        [ (strLit "title", JValue.jstr cm.title),
          (strLit "criteria", JValue.jobj crits) ])

/-- The data dict built by export_json (src/app.py lines 214-238), with the
exact key order of the source literal. -/
def exportData (form : ObservationForm) : Except ExportError JValue :=
  match exMapM moduleJson form.modules with
  | .error e => .error e
  | .ok mods =>
    .ok (JValue.jobj
    [ (strLit "date", JValue.jstr form.date),
      (strLit "colleague", JValue.jstr form.colleague),
      (strLit "subject", JValue.jstr form.subject),
      (strLit "grade", JValue.jstr form.grade),
      (strLit "topic", JValue.jstr form.topic),
      (strLit "observer", JValue.jstr form.observer),
      (strLit "school", JValue.jstr form.school),
      (strLit "profile_focus", JValue.jarr (form.profile_focus.map JValue.jstr)),
      (strLit "weights", JValue.jobj
        (form.weights.map (fun p => (p.1, JValue.jdec p.2.m p.2.k)))),
      (strLit "modules", JValue.jobj mods),
      (strLit "strengths", JValue.jstr form.strengths),
      (strLit "next_steps", JValue.jstr form.next_steps) ])


/-- Newline followed by `ind` spaces: the whitespace json.dumps emits with
indent 2. -/
def nlIndent (ind : Nat) : Str := 10 :: List.replicate ind 32

/-- Lowercase hex digit code point for a value below 16. -/
def hexDigit (d : Nat) : Nat := if d < 10 then 48 + d else 87 + d

/-- The escaping json.dumps applies to one character with ensure_ascii
False: quote and backslash escapes, short control escapes, u-escapes for
the remaining control characters, everything else raw. -/
def escChar (c : Nat) : Str :=
  if c = 34 then [92, 34]
  else if c = 92 then [92, 92]
  else if c = 10 then [92, 110]
  else if c = 13 then [92, 114]
  else if c = 9 then [92, 116]
  else if c = 8 then [92, 98]
  else if c = 12 then [92, 102]
  else if c < 32 then [92, 117, 48, 48, hexDigit (c / 16), hexDigit (c % 16)]
  else [c]

/-- json.dumps string-body escaping. -/
def escapeStr (s : Str) : Str := s.foldr (fun c acc => escChar c ++ acc) []

mutual

/-- Rendering of json.dumps(value, ensure_ascii=False, indent=2) at a given
current indentation. -/
def renderJ (ind : Nat) : JValue → Str
  | .jstr s => 34 :: escapeStr s ++ [34]
  | .jint n => intToStr n
  | .jdec m k => decToStr m k
  | .jarr [] => [91, 93]
  | .jarr (x :: xs) =>
    91 :: nlIndent (ind + 2) ++ renderJ (ind + 2) x ++
      renderArrRest (ind + 2) xs ++ nlIndent ind ++ [93]
  | .jobj [] => [123, 125]
  | .jobj (f :: fs) =>
    123 :: nlIndent (ind + 2) ++ renderField (ind + 2) f ++
      renderObjRest (ind + 2) fs ++ nlIndent ind ++ [125]

/-- Rendering of one object member: quoted key, colon, space, value. -/
def renderField (ind : Nat) : Str × JValue → Str
  | (k, v) => 34 :: escapeStr k ++ [34, 58, 32] ++ renderJ ind v

/-- Rendering of the remaining array elements, each preceded by a comma and
a fresh indented line. -/
def renderArrRest (ind : Nat) : List JValue → Str
  | [] => []
  | x :: xs => 44 :: nlIndent ind ++ renderJ ind x ++ renderArrRest ind xs

/-- Rendering of the remaining object members. -/
def renderObjRest (ind : Nat) : List (Str × JValue) → Str
  | [] => []
  | f :: fs => 44 :: nlIndent ind ++ renderField ind f ++ renderObjRest ind fs

end

-- ----------------------------- UTF-8 codec ------------------------------

/-- UTF-8 encoding of one code point. -/
def utf8Char (c : Nat) : List Nat :=
  if c < 128 then [c]
  else if c < 2048 then [192 + c / 64, 128 + c % 64]
  else if c < 65536 then [224 + c / 4096, 128 + c / 64 % 64, 128 + c % 64]
  else [240 + c / 262144, 128 + c / 4096 % 64, 128 + c / 64 % 64, 128 + c % 64]

/-- UTF-8 encoding of a string, modelling Python str.encode with utf-8. -/
def utf8Encode (s : Str) : List Nat := s.foldr (fun c acc => utf8Char c ++ acc) []

/-- Fueled UTF-8 decoder (one fuel unit per decoded code point, so the
definition is structural and evaluates inside the kernel). -/
def utf8DecodeAux : Nat → List Nat → Option Str
  | _, [] => some []
  | 0, _ :: _ => none
  | fuel + 1, b :: bs =>
    if b < 128 then (utf8DecodeAux fuel bs).map (fun s => b :: s)
    else if b < 192 then none
    else if b < 224 then
      match bs with
      | b2 :: bs2 =>
        if 128 ≤ b2 ∧ b2 < 192 then
          (utf8DecodeAux fuel bs2).map (fun s => ((b - 192) * 64 + (b2 - 128)) :: s)
        else none
      | [] => none
    else if b < 240 then
      match bs with
      | b2 :: b3 :: bs3 =>
        if (128 ≤ b2 ∧ b2 < 192) ∧ (128 ≤ b3 ∧ b3 < 192) then
          (utf8DecodeAux fuel bs3).map
            (fun s => ((b - 224) * 4096 + (b2 - 128) * 64 + (b3 - 128)) :: s)
        else none
      | _ => none
    else if b < 248 then
      match bs with
      | b2 :: b3 :: b4 :: bs4 =>
        if (128 ≤ b2 ∧ b2 < 192) ∧ (128 ≤ b3 ∧ b3 < 192) ∧ (128 ≤ b4 ∧ b4 < 192) then
          (utf8DecodeAux fuel bs4).map
            (fun s => ((b - 240) * 262144 + (b2 - 128) * 4096 +
              (b3 - 128) * 64 + (b4 - 128)) :: s)
        else none
      | _ => none
    else none

/-- UTF-8 decoding of a byte sequence back to code points, modelling the
decode step of a round trip through Python bytes. -/
def utf8Decode (bs : List Nat) : Option Str := utf8DecodeAux (bs.length + 1) bs

/-- json.dumps(data, ensure_ascii=False, indent=2).encode("utf-8") as in
src/app.py line 239. -/
def json_dumps (v : JValue) : List Nat := utf8Encode (renderJ 0 v)

/-- export_json (src/app.py lines 213-239). -/
def export_json (form : ObservationForm) : Except ExportError (List Nat) :=
  (exportData form).map json_dumps

-- ----------------------------- JSON parser ------------------------------

/-- Drop leading JSON whitespace. -/
def skipWs : Str → Str
  | [] => []
  | c :: t => if c = 32 ∨ c = 10 ∨ c = 13 ∨ c = 9 then skipWs t else c :: t

/-- Read a maximal run of decimal digits, returning the accumulated value,
the digit count and the remaining input. -/
def parseDigits : Str → Nat → Nat → Nat × Nat × Str
  | [], acc, cnt => (acc, cnt, [])
  | c :: s, acc, cnt =>
    if 48 ≤ c ∧ c ≤ 57 then parseDigits s (acc * 10 + (c - 48)) (cnt + 1)
    else (acc, cnt, c :: s)

/-- Parse the digit part of a JSON number after the optional sign: integer
digits, and a fraction part when a decimal point follows. -/
def parseNumberCore (neg : Bool) (s : Str) : Option (JValue × Str) :=
  match parseDigits s 0 0 with
  | (_, 0, _) => none
  | (v, _ + 1, r) =>
    match r with
    | 46 :: r2 =>
      (match parseDigits r2 0 0 with
       | (_, 0, _) => none
       | (f, c2 + 1, r3) =>
         some (JValue.jdec ((if neg then -1 else 1) *
           ((v * 10 ^ (c2 + 1) + f : Nat) : Int)) (c2 + 1), r3))
    | _ => some (JValue.jint (if neg then -(v : Int) else (v : Int)), r)

/-- Parse a JSON number (integer, or decimal with a fraction part). -/
def parseNumber (s : Str) : Option (JValue × Str) :=
  match s with
  | 45 :: t => parseNumberCore true t
  | _ => parseNumberCore false s

/-- Value of a hex digit code point. -/
def hexVal (c : Nat) : Option Nat :=
  if 48 ≤ c ∧ c ≤ 57 then some (c - 48)
  else if 97 ≤ c ∧ c ≤ 102 then some (c - 87)
  else if 65 ≤ c ∧ c ≤ 70 then some (c - 55)
  else none

/-- Parse a JSON string body (after the opening quote) up to and including
the closing quote, handling the escapes json.dumps emits.  The fuel only
bounds the recursion depth (one unit per decoded character) so that the
definition is structural; input length plus one always suffices. -/
def parseStringBody : Nat → Str → Option (Str × Str)
  | 0, _ => none
  | _ + 1, [] => none
  | fuel + 1, c :: s =>
    if c = 34 then some ([], s)
    else if c = 92 then
      match s with
      | [] => none
      | e :: s2 =>
        if e = 34 then (parseStringBody fuel s2).map (fun p => (34 :: p.1, p.2))
        else if e = 92 then (parseStringBody fuel s2).map (fun p => (92 :: p.1, p.2))
        else if e = 110 then (parseStringBody fuel s2).map (fun p => (10 :: p.1, p.2))
        else if e = 114 then (parseStringBody fuel s2).map (fun p => (13 :: p.1, p.2))
        else if e = 116 then (parseStringBody fuel s2).map (fun p => (9 :: p.1, p.2))
        else if e = 98 then (parseStringBody fuel s2).map (fun p => (8 :: p.1, p.2))
        else if e = 102 then (parseStringBody fuel s2).map (fun p => (12 :: p.1, p.2))
        else if e = 117 then
          match s2 with
          | h1 :: h2 :: h3 :: h4 :: s6 =>
            (match hexVal h1, hexVal h2, hexVal h3, hexVal h4 with
             | some a, some b, some c3, some d =>
               (parseStringBody fuel s6).map
                 (fun p => ((a * 4096 + b * 256 + c3 * 16 + d) :: p.1, p.2))
             | _, _, _, _ => none)
          | _ => none
        else none
    else (parseStringBody fuel s).map (fun p => (c :: p.1, p.2))

mutual

/-- Fueled JSON value parser (fuel bounds the nesting work; the top-level
entry point supplies input length plus one, which suffices). -/
def parseValue : Nat → Str → Option (JValue × Str)
  | 0, _ => none
  | n + 1, s =>
    match skipWs s with
    | [] => none
    | c :: t =>
      if c = 34 then
        (parseStringBody (t.length + 1) t).map (fun p => (JValue.jstr p.1, p.2))
      else if c = 91 then
        match skipWs t with
        | [] => none
        | c2 :: t2 =>
          if c2 = 93 then some (JValue.jarr [], t2)
          else
            match parseValue n (c2 :: t2) with
            | some (v, r1) =>
              (match parseArrRest n r1 with
               | some (vs, r2) => some (JValue.jarr (v :: vs), r2)
               | none => none)
            | none => none
      else if c = 123 then
        match skipWs t with
        | [] => none
        | c2 :: t2 =>
          if c2 = 125 then some (JValue.jobj [], t2)
          else
            match parseField n (c2 :: t2) with
            | some (f, r1) =>
              (match parseObjRest n r1 with
               | some (fs, r2) => some (JValue.jobj (f :: fs), r2)
               | none => none)
            | none => none
      else parseNumber (c :: t)

/-- Fueled parser for one object member. -/
def parseField : Nat → Str → Option ((Str × JValue) × Str)
  | 0, _ => none
  | n + 1, s =>
    match skipWs s with
    | 34 :: t =>
      (match parseStringBody (t.length + 1) t with
       | some (k, r) =>
         (match skipWs r with
          | 58 :: r2 =>
            (match parseValue n r2 with
             | some (v, r3) => some ((k, v), r3)
             | none => none)
          | _ => none)
       | none => none)
    | _ => none

/-- Fueled parser for the remaining array elements up to the closing
bracket. -/
def parseArrRest : Nat → Str → Option (List JValue × Str)
  | 0, _ => none
  | n + 1, s =>
    match skipWs s with
    | 44 :: t =>
      (match parseValue n t with
       | some (v, r1) =>
         (match parseArrRest n r1 with
          | some (vs, r2) => some (v :: vs, r2)
          | none => none)
       | none => none)
    | 93 :: t => some ([], t)
    | _ => none

/-- Fueled parser for the remaining object members up to the closing
brace. -/
def parseObjRest : Nat → Str → Option (List (Str × JValue) × Str)
  | 0, _ => none
  | n + 1, s =>
    match skipWs s with
    | 44 :: t =>
      (match parseField n t with
       | some (f, r1) =>
         (match parseObjRest n r1 with
          | some (fs, r2) => some (f :: fs, r2)
          | none => none)
       | none => none)
    | 125 :: t => some ([], t)
    | _ => none

end

/-- json.loads on a decoded character sequence: parse one value and require
only whitespace after it. -/
def json_loads_chars (s : Str) : Option JValue :=
  match parseValue (s.length + 1) s with
  | some (v, r) => if skipWs r = [] then some v else none
  | none => none

/-- json.loads on a byte payload: UTF-8 decode, then parse. -/
def json_loads (bs : List Nat) : Option JValue :=
  (utf8Decode bs).bind json_loads_chars

-- ----------------------------- JSON sizes and validity ------------------

mutual

/-- Structural size of a JSON value, used as the fuel bound. -/
def sizeJ : JValue → Nat
  | .jstr _ => 1
  | .jint _ => 1
  | .jdec _ _ => 1
  | .jarr xs => 2 + sizeL xs
  | .jobj fs => 2 + sizeF fs

/-- Size of an array tail. -/
def sizeL : List JValue → Nat
  | [] => 1
  | x :: xs => 1 + sizeJ x + sizeL xs

/-- Size of an object tail. -/
def sizeF : List (Str × JValue) → Nat
  | [] => 1
  | f :: fs => 2 + sizeJ f.2 + sizeF fs

end

/-- A code point Python can UTF-8 encode: below 0x110000 and not a
surrogate. -/
def validCp (c : Nat) : Bool := c < 1114112 && !(55296 ≤ c && c < 57344)

/-- All code points of a string encodable. -/
def validStr (s : Str) : Bool := s.all validCp

mutual

/-- A JSON value faithful to what Python produces: encodable strings, and
decimals with at least one fraction digit (as float repr prints). -/
def validJ : JValue → Bool
  | .jstr s => validStr s
  | .jint _ => true
  | .jdec _ k => decide (1 ≤ k)
  | .jarr xs => validL xs
  | .jobj fs => validF fs

/-- Validity of array elements. -/
def validL : List JValue → Bool
  | [] => true
  | x :: xs => validJ x && validL xs

/-- Validity of object members. -/
def validF : List (Str × JValue) → Bool
  | [] => true
  | f :: fs => validStr f.1 && validJ f.2 && validF fs

end

-- ----------------------------- JSON record decoder ----------------------

/-- Option-valued map over a list, failing on the first failing element. -/
def optMapM {α β : Type} (f : α → Option β) : List α → Option (List β)
  | [] => some []
  | a :: l => do
    let b ← f a
    let bs ← optMapM f l
    pure (b :: bs)

/-- Decode one serialized criterion back to a CriterionResult (the catalog
text is present but derived, so it is read past). -/
def jCriterionOf : JValue → Option CriterionResult
  | .jobj [(k1, .jstr _), (k2, .jint r), (k3, .jstr c)] =>
    if k1 = strLit "text" ∧ k2 = strLit "rating" ∧ k3 = strLit "comment" then
      some { rating := r, comment := c }
    else none
  | _ => none

/-- Decode one serialized module back to a ModuleResult (the title is
derived catalog data; the module key is the mapping key). -/
def jModuleOf (mk : Str) : JValue → Option ModuleResult
  | .jobj [(k1, .jstr _), (k2, .jobj crits)] =>
    if k1 = strLit "title" ∧ k2 = strLit "criteria" then
      (optMapM (fun (p : Str × JValue) =>
        (jCriterionOf p.2).map (fun c => (p.1, c))) crits).map
        (fun cs => { module_key := mk, criteria := cs })
    else none
  | _ => none

/-- Decode a serialized weight back to a PyFloat. -/
def jFloatOf : JValue → Option PyFloat
  | .jdec m k => some { m := m, k := k }
  | _ => none

/-- Decode a serialized focus entry back to a string. -/
def jStrOf : JValue → Option Str
  | .jstr s => some s
  | _ => none

/-- Decode the export_json payload structure back to an ObservationForm:
the inverse reading of the data dict of src/app.py lines 214-238. -/
def formOfJson : JValue → Option ObservationForm
  | .jobj [(k1, .jstr date), (k2, .jstr colleague), (k3, .jstr subject),
           (k4, .jstr grade), (k5, .jstr topic), (k6, .jstr observer),
           (k7, .jstr school), (k8, .jarr pf), (k9, .jobj ws),
           (k10, .jobj mods), (k11, .jstr strengths), (k12, .jstr nexts)] =>
    if k1 = strLit "date" ∧ k2 = strLit "colleague" ∧ k3 = strLit "subject" ∧
       k4 = strLit "grade" ∧ k5 = strLit "topic" ∧ k6 = strLit "observer" ∧
       k7 = strLit "school" ∧ k8 = strLit "profile_focus" ∧
       k9 = strLit "weights" ∧ k10 = strLit "modules" ∧
       k11 = strLit "strengths" ∧ k12 = strLit "next_steps" then do
      let pf2 ← optMapM jStrOf pf
      let ws2 ← optMapM (fun (p : Str × JValue) =>
        (jFloatOf p.2).map (fun w => (p.1, w))) ws
      let mods2 ← optMapM (fun (p : Str × JValue) =>
        (jModuleOf p.1 p.2).map (fun m => (p.1, m))) mods
      pure { date := date, colleague := colleague, subject := subject,
             grade := grade, topic := topic, observer := observer,
             school := school, modules := mods2, strengths := strengths,
             next_steps := nexts, profile_focus := pf2, weights := ws2 }
    else none
  | _ => none

-- ----------------------------- Record validity --------------------------

/-- The record invariants under which export_json is faithful to Python:
every string UTF-8 encodable, every weight a repr-shaped decimal (at least
one fraction digit), and every module entry carrying its mapping key as
module_key (as init_form builds them, src/app.py lines 120-130). -/
def FormValid (form : ObservationForm) : Bool :=
  validStr form.date && validStr form.colleague && validStr form.subject &&
  validStr form.grade && validStr form.topic && validStr form.observer &&
  validStr form.school && validStr form.strengths && validStr form.next_steps &&
  form.profile_focus.all validStr &&
  form.weights.all (fun p => validStr p.1 && decide (1 ≤ p.2.k)) &&
  form.modules.all (fun p => validStr p.1 && decide (p.2.module_key = p.1) &&
    p.2.criteria.all (fun c => validStr c.1 && validStr c.2.comment))

-- ----------------------------- JSON accessors (for claim C6) -------------

/-- Top-level keys of a JSON object, in order. -/
def jKeys : JValue → List Str
  | .jobj fs => fs.map Prod.fst
  | _ => []

/-- Field access on a JSON object. -/
def jGet (v : JValue) (k : Str) : Option JValue :=
  match v with
  | .jobj fs => alookup fs k
  | _ => none

-- --------------- State-threaded renderers (frame claim) -----------------

/-- export_docx as a state-threaded computation over the record.  The
Python body (src/app.py lines 145-211) reads form fields but contains no
assignment to the record or to any of its nested objects, so its
translation reads the state once and never writes it. -/
def export_docx_proc : StateM ObservationForm (Except ExportError (List DocxBlock)) := do
  let form ← get
  pure (export_docx form)

/-- export_pdf as a state-threaded computation over the record (src/app.py
lines 241-301: field reads only, no assignment to the record). -/
def export_pdf_proc : StateM ObservationForm (Except ExportError (List Nat)) := do
  let form ← get
  pure (export_pdf form)

/-- export_json as a state-threaded computation over the record (src/app.py
lines 213-239: field reads only, no assignment to the record). -/
def export_json_proc : StateM ObservationForm (Except ExportError (List Nat)) := do
  let form ← get
  pure (export_json form)

-- --------------- Concrete records for witnesses -------------------------

/-- A record with every field empty and no modules selected. -/
def emptyForm : ObservationForm :=
  { date := [], colleague := [], subject := [], grade := [], topic := [],
    observer := [], school := [], modules := [], strengths := [],
    next_steps := [], profile_focus := [], weights := [] }

/-- The record of the numeric scenario: M1 rated [2,3,2,4,1], M3 rated
[3,3,3,3,3], weights M1 1.2 and M3 1.0. -/
def c8form : ObservationForm :=
  { emptyForm with
    modules :=
      [ (strLit "M1",
         { module_key := strLit "M1", criteria :=
            [ (strLit "1.1", { rating := 2, comment := [] }),
              (strLit "1.2", { rating := 3, comment := [] }),
              (strLit "1.3", { rating := 2, comment := [] }),
              (strLit "1.4", { rating := 4, comment := [] }),
              (strLit "1.5", { rating := 1, comment := [] }) ] }),
        (strLit "M3",
         { module_key := strLit "M3", criteria :=
            [ (strLit "3.1", { rating := 3, comment := [] }),
              (strLit "3.2", { rating := 3, comment := [] }),
              (strLit "3.3", { rating := 3, comment := [] }),
              (strLit "3.4", { rating := 3, comment := [] }),
              (strLit "3.5", { rating := 3, comment := [] }) ] }) ],
    weights := [ (strLit "M1", { m := 12, k := 1 }),
                 (strLit "M3", { m := 10, k := 1 }) ] }

/-- A record whose modules mapping references module id M9, absent from the
catalog. -/
def c3form : ObservationForm :=
  { emptyForm with
    modules := [ (strLit "M9", { module_key := strLit "M9", criteria := [] }) ] }

/-- A record with one known module, one criterion with an empty comment,
and empty strengths / next-steps fields. -/
def c9form : ObservationForm :=
  { emptyForm with
    modules :=
      [ (strLit "M1",
         { module_key := strLit "M1", criteria :=
            [ (strLit "1.1", { rating := 2, comment := [] }) ] }) ] }

/-- A fully populated small record whose module carries the complete M1
criterion set in catalog order. -/
def c6form : ObservationForm :=
  { date := strLit "2026-01-15", colleague := strLit "Frau Müller",
    subject := strLit "Deutsch", grade := strLit "7a",
    topic := strLit "Lyrik", observer := strLit "Herr Schmidt",
    school := strLit "GS Mitte",
    modules :=
      [ (strLit "M1",
         { module_key := strLit "M1", criteria :=
            [ (strLit "1.1", { rating := 2, comment := strLit "gut" }),
              (strLit "1.2", { rating := 3, comment := [] }),
              (strLit "1.3", { rating := 1, comment := strLit "ok" }),
              (strLit "1.4", { rating := 4, comment := [] }),
              (strLit "1.5", { rating := 0, comment := [] }) ] }) ],
    strengths := strLit "Klare Struktur", next_steps := strLit "Mehr Zeit",
    profile_focus := [strLit "M1"],
    weights := [ (strLit "M1", { m := 12, k := 1 }) ] }

/-- The byte payload export_pdf produces for the empty record. -/
def c2bytes : List Nat :=
  match export_pdf emptyForm with
  | .ok bs => bs
  | .error _ => []

/-- The byte payload export_json produces for the populated small record. -/
def c5bytes : List Nat :=
  match export_json c6form with
  | .ok bs => bs
  | .error _ => []

/-- The data dict export_json builds for the populated small record. -/
def c6data : JValue :=
  match exportData c6form with
  | .ok v => v
  | .error _ => JValue.jint 0


/-- Characters on which the parser correctly stops after a value: the
characters that can follow a rendered value in json.dumps output (comma,
newline, closing bracket, closing brace) or end of input. -/
def stops : Str → Bool
  | [] => true
  | c :: _ => c == 44 || c == 10 || c == 93 || c == 125

/-- The input does not begin with a decimal digit. -/
def noDigitHead : Str → Prop
  | [] => True
  | c :: _ => ¬(48 ≤ c ∧ c ≤ 57)

-- ===================== Helper lemmas =====================================

theorem alookup_mem {α : Type} {l : List (Str × α)} {k : Str} {v : α}
    (h : alookup l k = some v) : (k, v) ∈ l := by
  induction l with
  | nil => simp [alookup] at h
  | cons hd tl ih =>
    obtain ⟨k₀, v₀⟩ := hd
    simp only [alookup] at h
    split at h
    · rename_i hk
      cases h
      subst hk
      exact List.mem_cons_self _ _
    · exact List.mem_cons_of_mem _ (ih h)

theorem scores_foldl (form : ObservationForm) (l : List (Str × ModuleResult))
    (acc : List (Str × ℚ) × ℚ × ℚ) :
    List.foldl (scoresStep form) acc l =
      (acc.1 ++ l.map (fun p => (p.1, moduleAvg p.2)),
       acc.2.1 + (l.map (fun p => moduleAvg p.2 * weightOf form p.1)).sum,
       acc.2.2 + (l.map (fun p => weightOf form p.1)).sum) := by
  induction l generalizing acc with
  | nil => simp
  | cons a t ih =>
    rw [List.foldl_cons, ih]
    simp only [scoresStep, moduleAvg, List.map_cons, List.sum_cons, Prod.mk.injEq]
    refine ⟨by simp, by ring, by ring⟩

theorem compute_scores_eq (form : ObservationForm) :
    compute_scores form =
      (form.modules.map (fun p => (p.1, moduleAvg p.2)),
       if (form.modules.map (fun p => weightOf form p.1)).sum = 0 then 0
       else (form.modules.map (fun p => moduleAvg p.2 * weightOf form p.1)).sum /
         (form.modules.map (fun p => weightOf form p.1)).sum) := by
  unfold compute_scores
  rw [scores_foldl]
  simp

theorem sum_ratings_bounds {l : List Int} (h : ∀ r ∈ l, 0 ≤ r ∧ r ≤ 4) :
    0 ≤ l.sum ∧ l.sum ≤ 4 * l.length := by
  induction l with
  | nil => simp
  | cons a t ih =>
    obtain ⟨ha1, ha2⟩ := h a (List.mem_cons_self _ _)
    obtain ⟨ht1, ht2⟩ := ih (fun r hr => h r (List.mem_cons_of_mem _ hr))
    simp only [List.sum_cons, List.length_cons]
    constructor <;> [omega; (push_cast; omega)]

theorem int_div_le_four {S : Int} {L : Nat} (hL : L ≠ 0) (h1 : 0 ≤ S)
    (h2 : S ≤ 4 * (L : Int)) : 0 ≤ (S : ℚ) / (L : ℚ) ∧ (S : ℚ) / (L : ℚ) ≤ 4 := by
  have hLpos : 0 < (L : ℚ) := by exact_mod_cast Nat.pos_of_ne_zero hL
  constructor
  · apply div_nonneg _ hLpos.le
    exact_mod_cast h1
  · rw [div_le_iff₀ hLpos]
    have h3 : (S : ℚ) ≤ ((4 * L : Int) : ℚ) := by exact_mod_cast h2
    push_cast at h3
    linarith

theorem moduleAvg_range {mod : ModuleResult}
    (h : ∀ c ∈ mod.criteria, 0 ≤ c.2.rating ∧ c.2.rating ≤ 4) :
    0 ≤ moduleAvg mod ∧ moduleAvg mod ≤ 4 := by
  unfold moduleAvg
  by_cases hlen : (mod.criteria.map (fun c => c.2.rating)).length = 0
  · simp [hlen]
  · rw [if_neg hlen]
    have hb : 0 ≤ (mod.criteria.map (fun c => c.2.rating)).sum ∧
        (mod.criteria.map (fun c => c.2.rating)).sum ≤
          4 * (mod.criteria.map (fun c => c.2.rating)).length := by
      apply sum_ratings_bounds
      intro r hr
      obtain ⟨c, hc, hcr⟩ := List.mem_map.mp hr
      exact hcr ▸ h c hc
    exact int_div_le_four hlen hb.1 hb.2

theorem weightOf_nonneg {form : ObservationForm}
    (hw : ∀ q ∈ form.weights, 0 ≤ q.2.val) (mk : Str) : 0 ≤ weightOf form mk := by
  unfold weightOf
  cases h : alookup form.weights mk with
  | none => norm_num
  | some w => exact hw (mk, w) (alookup_mem h)

theorem weighted_sum_bounds (form : ObservationForm) (l : List (Str × ModuleResult))
    (ha : ∀ p ∈ l, 0 ≤ moduleAvg p.2 ∧ moduleAvg p.2 ≤ 4)
    (hw : ∀ p ∈ l, 0 ≤ weightOf form p.1) :
    0 ≤ (l.map (fun p => weightOf form p.1)).sum ∧
    0 ≤ (l.map (fun p => moduleAvg p.2 * weightOf form p.1)).sum ∧
    (l.map (fun p => moduleAvg p.2 * weightOf form p.1)).sum ≤
      4 * (l.map (fun p => weightOf form p.1)).sum := by
  induction l with
  | nil => simp
  | cons a t ih =>
    obtain ⟨h1, h2, h3⟩ := ih (fun p hp => ha p (List.mem_cons_of_mem _ hp))
      (fun p hp => hw p (List.mem_cons_of_mem _ hp))
    obtain ⟨ha1, ha2⟩ := ha a (List.mem_cons_self _ _)
    have hwa := hw a (List.mem_cons_self _ _)
    simp only [List.map_cons, List.sum_cons]
    have hm : moduleAvg a.2 * weightOf form a.1 ≤ 4 * weightOf form a.1 :=
      mul_le_mul_of_nonneg_right ha2 hwa
    refine ⟨by positivity, ?_, by linarith⟩
    have := mul_nonneg ha1 hwa
    linarith

-- ===================== Claim theorems ====================================

/-- C1: compute_scores returns, for every record, per-module averages equal
to the sum of the criterion ratings divided by the criterion count (0 when
a module has no criteria, without failing), and an overall score equal to
the weighted sum of averages divided by the weight total over the modules
present, with weight 1 for modules absent from record.weights, and overall
0 when the weight total is 0; with no modules it returns an empty
per-module map and overall 0. -/
theorem C1_compute_scores_spec (form : ObservationForm) :
    (compute_scores form).1 = form.modules.map (fun p => (p.1, moduleAvg p.2)) ∧
    (∀ p ∈ form.modules, moduleAvg p.2 =
      (if p.2.criteria.length = 0 then 0
       else (((p.2.criteria.map (fun c => c.2.rating)).sum : Int) : ℚ) /
         (p.2.criteria.length : ℚ))) ∧
    (∀ mk : Str, alookup form.weights mk = none → weightOf form mk = 1) ∧
    (compute_scores form).2 =
      (if (form.modules.map (fun p => weightOf form p.1)).sum = 0 then 0
       else (form.modules.map (fun p => moduleAvg p.2 * weightOf form p.1)).sum /
         (form.modules.map (fun p => weightOf form p.1)).sum) ∧
    (form.modules = [] → compute_scores form = ([], 0)) := by
  refine ⟨?_, ?_, ?_, ?_, ?_⟩
  · rw [compute_scores_eq]
  · intro p _
    unfold moduleAvg
    dsimp only
    rw [List.length_map]
  · intro mk h
    unfold weightOf
    rw [h]
  · rw [compute_scores_eq]
  · intro h
    rw [compute_scores_eq, h]
    simp

/-- C1 witness: at the record with no modules, the spec theorem yields the
empty per-module map and overall 0. -/
theorem C1_witness : compute_scores emptyForm = ([], 0) :=
  (C1_compute_scores_spec emptyForm).2.2.2.2 rfl

/-- C8: for the record with M1 rated [2,3,2,4,1], M3 rated [3,3,3,3,3] and
weights 1.2 / 1.0, compute_scores yields averages 2.4 and 3.0 and overall
(2.4 times 1.2 plus 3.0 times 1.0) divided by 2.2, within 1e-6. -/
theorem C8_concrete_scores :
    (compute_scores c8form).1 =
      [(strLit "M1", 12 / 5), (strLit "M3", 3)] ∧
    |(compute_scores c8form).2 -
      ((24 / 10) * (12 / 10) + (30 / 10) * (10 / 10)) / (22 / 10)| ≤
      1 / 1000000 := by
  have h1 : strLit "M1" = [77, 49] := rfl
  have h3 : strLit "M3" = [77, 51] := rfl
  rw [compute_scores_eq]
  constructor
  · simp only [c8form, emptyForm, List.map_cons, List.map_nil, moduleAvg,
      List.sum_cons, List.sum_nil, List.length_cons, List.length_nil]
    norm_num [h1, h3]
  · simp only [c8form, emptyForm, List.map_cons, List.map_nil, moduleAvg,
      List.sum_cons, List.sum_nil, List.length_cons, List.length_nil,
      weightOf, alookup, PyFloat.val, h1, h3]
    norm_num [abs_le]

/-- C10: when every rating lies in 0..4 and every stored weight is
non-negative, every per-module average and the overall score lie in
[0, 4]. -/
theorem C10_scores_in_range (form : ObservationForm)
    (hr : ∀ p ∈ form.modules, ∀ c ∈ p.2.criteria, 0 ≤ c.2.rating ∧ c.2.rating ≤ 4)
    (hw : ∀ q ∈ form.weights, 0 ≤ q.2.val) :
    (∀ p ∈ (compute_scores form).1, 0 ≤ p.2 ∧ p.2 ≤ 4) ∧
    0 ≤ (compute_scores form).2 ∧ (compute_scores form).2 ≤ 4 := by
  have havg : ∀ p ∈ form.modules, 0 ≤ moduleAvg p.2 ∧ moduleAvg p.2 ≤ 4 :=
    fun p hp => moduleAvg_range (hr p hp)
  have hwn : ∀ p ∈ form.modules, (0:ℚ) ≤ weightOf form p.1 :=
    fun p _ => weightOf_nonneg hw p.1
  obtain ⟨hW, hS, hSW⟩ := weighted_sum_bounds form form.modules havg hwn
  rw [compute_scores_eq]
  refine ⟨?_, ?_, ?_⟩
  · intro p hp
    obtain ⟨q, hq, hqe⟩ := List.mem_map.mp hp
    exact hqe ▸ havg q hq
  · split
    · norm_num
    · exact div_nonneg hS hW
  · split
    · norm_num
    · rename_i hne
      have hWpos : 0 < (form.modules.map (fun p => weightOf form p.1)).sum :=
        lt_of_le_of_ne hW (Ne.symm hne)
      rw [div_le_iff₀ hWpos]
      linarith

/-- C10 witness: the range theorem applied to the concrete populated
record. -/
theorem C10_witness :
    (∀ p ∈ (compute_scores c8form).1, 0 ≤ p.2 ∧ p.2 ≤ 4) ∧
    0 ≤ (compute_scores c8form).2 ∧ (compute_scores c8form).2 ≤ 4 :=
  C10_scores_in_range c8form (by decide)
    (by
      intro q hq
      simp only [c8form, emptyForm, List.mem_cons, List.not_mem_nil, or_false] at hq
      rcases hq with h | h <;> subst h <;> norm_num [PyFloat.val])

/-- C4 counterexample: the suggested-comment lookup at the out-of-range
rating 5 does not fail; the dict .get call returns the supplied default
(the empty string at the call site, src/app.py line 389). -/
theorem C4_counterexample :
    AUTO_COMMENTS_get 5 [] = [] ∧ ilookup AUTO_COMMENTS 5 = none := by
  constructor <;> decide

/-- C4 (amended): the lookup returns the fixed not-observed text for rating
0 and a fixed stored comment for each rating 0..4; for every rating outside
0..4 the dict misses and .get returns the supplied default instead of
failing (src/app.py line 389 supplies the empty string). -/
theorem C4_auto_comments_spec :
    AUTO_COMMENTS_get 0 [] = strLit "Bei der Hospitation war dieses Kriterium nicht erkennbar. Mögliche Ursache: Situations-/Phasenabhängigkeit." ∧
    (∀ r : Int, 0 ≤ r ∧ r ≤ 4 →
      ∃ s, ilookup AUTO_COMMENTS r = some s ∧ AUTO_COMMENTS_get r [] = s) ∧
    (∀ r : Int, r < 0 ∨ 4 < r →
      ilookup AUTO_COMMENTS r = none ∧ ∀ d, AUTO_COMMENTS_get r d = d) := by
  refine ⟨by decide, ?_, ?_⟩
  · rintro r ⟨h0, h4⟩
    interval_cases r
    · exact ⟨_, rfl, rfl⟩
    · exact ⟨_, rfl, rfl⟩
    · exact ⟨_, rfl, rfl⟩
    · exact ⟨_, rfl, rfl⟩
    · exact ⟨_, rfl, rfl⟩
  · intro r hr
    have hnone : ilookup AUTO_COMMENTS r = none := by
      simp only [AUTO_COMMENTS, ilookup]
      rw [if_neg (by omega), if_neg (by omega), if_neg (by omega),
        if_neg (by omega), if_neg (by omega)]
    refine ⟨hnone, fun d => ?_⟩
    unfold AUTO_COMMENTS_get
    rw [hnone]

/-- C4 witness: the amended lookup theorem applied at rating 3. -/
theorem C4_witness :
    ∃ s, ilookup AUTO_COMMENTS (3:Int) = some s ∧ AUTO_COMMENTS_get 3 [] = s :=
  C4_auto_comments_spec.2.1 3 (by decide)

-- ===================== Digit-rendering lemmas ============================

theorem natDigitsAux_congr : ∀ f1 f2 n : Nat, n < 10 ^ f1 → n < 10 ^ f2 →
    0 < f1 → 0 < f2 → natDigitsAux f1 n = natDigitsAux f2 n := by
  intro f1
  induction f1 with
  | zero => omega
  | succ g ih =>
    intro f2 n h1 h2 _ hp2
    cases f2 with
    | zero => omega
    | succ g2 =>
      rw [natDigitsAux, natDigitsAux]
      by_cases hn : n < 10
      · rw [if_pos hn, if_pos hn]
      · rw [if_neg hn, if_neg hn]
        have hg : 0 < g := by
          rcases Nat.eq_zero_or_pos g with h | h
          · subst h; simp at h1; omega
          · exact h
        have hg2 : 0 < g2 := by
          rcases Nat.eq_zero_or_pos g2 with h | h
          · subst h; simp at h2; omega
          · exact h
        have hd1 : n / 10 < 10 ^ g := by
          rw [Nat.div_lt_iff_lt_mul (by norm_num)]
          calc n < 10 ^ (g + 1) := h1
            _ = 10 ^ g * 10 := by rw [pow_succ]
        have hd2 : n / 10 < 10 ^ g2 := by
          rw [Nat.div_lt_iff_lt_mul (by norm_num)]
          calc n < 10 ^ (g2 + 1) := h2
            _ = 10 ^ g2 * 10 := by rw [pow_succ]
        rw [ih g2 (n / 10) hd1 hd2 hg hg2]

theorem lt_ten_pow_succ (n : Nat) : n < 10 ^ (n + 1) := by
  have h : n < 10 ^ n := Nat.lt_pow_self (show 1 < 10 by norm_num) n
  calc n < 10 ^ n := h
    _ ≤ 10 ^ (n + 1) := Nat.pow_le_pow_right (by norm_num) (by omega)

theorem natDigits_eq (n : Nat) :
    natDigits n = if n < 10 then [48 + n]
      else natDigits (n / 10) ++ [48 + n % 10] := by
  unfold natDigits
  rw [natDigitsAux]
  by_cases hn : n < 10
  · rw [if_pos hn, if_pos hn]
  · rw [if_neg hn, if_neg hn]
    congr 1
    apply natDigitsAux_congr
    · calc n / 10 ≤ n := Nat.div_le_self _ _
        _ < 10 ^ n := Nat.lt_pow_self (show 1 < 10 by norm_num) n
    · exact lt_ten_pow_succ _
    · omega
    · omega

-- ===================== Except inversion lemmas ===========================

theorem exMapM_error_of_mem {ε α β : Type} {f : α → Except ε β} {l : List α}
    {a : α} (ha : a ∈ l) {e : ε} (hf : f a = .error e) :
    ∃ e2, exMapM f l = .error e2 := by
  induction l with
  | nil => cases ha
  | cons hd tl ih =>
    rcases List.mem_cons.mp ha with h | h
    · subst h
      exact ⟨e, by rw [exMapM, hf]⟩
    · cases hfd : f hd with
      | error e2 => exact ⟨e2, by rw [exMapM, hfd]⟩
      | ok b =>
        obtain ⟨e2, he2⟩ := ih h
        exact ⟨e2, by rw [exMapM, hfd, he2]⟩

theorem exMapM_ok_mem {ε α β : Type} {f : α → Except ε β} {l : List α}
    {bs : List β} (h : exMapM f l = .ok bs) {a : α} (ha : a ∈ l) :
    ∃ b, b ∈ bs ∧ f a = .ok b := by
  induction l generalizing bs with
  | nil => cases ha
  | cons hd tl ih =>
    rw [exMapM] at h
    split at h
    · exact Except.noConfusion h
    · rename_i b hfd
      split at h
      · exact Except.noConfusion h
      · rename_i bs2 htl
        injection h with h2
        subst h2
        rcases List.mem_cons.mp ha with h3 | h3
        · subst h3
          exact ⟨b, List.mem_cons_self _ _, hfd⟩
        · obtain ⟨b2, hb2, hfb⟩ := ih htl h3
          exact ⟨b2, List.mem_cons_of_mem _ hb2, hfb⟩

theorem docxModuleBlocks_error {mk : Str} {mod : ModuleResult}
    (h : alookup BLI_DATA mk = none) :
    docxModuleBlocks (mk, mod) = .error (ExportError.keyError mk) := by
  unfold docxModuleBlocks
  rw [show ((mk, mod) : Str × ModuleResult).1 = mk from rfl, h]

theorem pdfModuleLines_error {mk : Str} {mod : ModuleResult}
    (h : alookup BLI_DATA mk = none) :
    pdfModuleLines (mk, mod) = .error (ExportError.keyError mk) := by
  unfold pdfModuleLines
  rw [show ((mk, mod) : Str × ModuleResult).1 = mk from rfl, h]

theorem moduleJson_error {mk : Str} {mod : ModuleResult}
    (h : alookup BLI_DATA mk = none) :
    moduleJson (mk, mod) = .error (ExportError.keyError mk) := by
  unfold moduleJson
  rw [show ((mk, mod) : Str × ModuleResult).1 = mk from rfl, h]

theorem export_docx_ok_inv {form : ObservationForm} {blocks : List DocxBlock}
    (h : export_docx form = .ok blocks) :
    ∃ mbs, exMapM docxModuleBlocks form.modules = .ok mbs ∧
      blocks = docxMetaBlocks form ++ mbs.flatten ++
        [ DocxBlock.heading 2 (strLit "Stärken"),
          DocxBlock.paragraph (pyOr form.strengths (strLit "-")),
          DocxBlock.heading 2 (strLit "Nächste Schritte (konkret, terminiert)"),
          DocxBlock.paragraph (pyOr form.next_steps (strLit "-")) ] ++
        docxScoreBlocks form := by
  unfold export_docx at h
  split at h
  · exact Except.noConfusion h
  · rename_i mbs hmbs
    injection h with h2
    exact ⟨mbs, hmbs, h2.symm⟩

theorem pdfTexts_ok_inv {form : ObservationForm} {ls : List Str}
    (h : pdfTexts form = .ok ls) :
    ∃ mls, exMapM pdfModuleLines form.modules = .ok mls ∧
      ls = strLit "Hospitationsbogen – BLI 3.0" ::
        (pdfMetaLines form ++ mls.flatten ++
        [ strLit "Stärken", pyOr form.strengths (strLit "-"),
          strLit "Nächste Schritte (konkret, terminiert)",
          pyOr form.next_steps (strLit "-") ] ++
        pdfScoreLines form) := by
  unfold pdfTexts at h
  split at h
  · exact Except.noConfusion h
  · rename_i mls hmls
    injection h with h2
    exact ⟨mls, hmls, h2.symm⟩

theorem docxModuleBlocks_ok_inv {p : Str × ModuleResult} {mb : List DocxBlock}
    (h : docxModuleBlocks p = .ok mb) :
    ∃ cm rows, alookup BLI_DATA p.1 = some cm ∧
      exMapM (docxRow cm) p.2.criteria = .ok rows ∧
      mb = [ DocxBlock.heading 2 (p.1 ++ strLit " – " ++ cm.title),
             DocxBlock.table
               [strLit "Kriterium", strLit "Bewertung (0–4)", strLit "Kommentar/Hinweis"]
               rows,
             DocxBlock.paragraph [] ] := by
  unfold docxModuleBlocks at h
  split at h
  · exact Except.noConfusion h
  · rename_i cm hcm
    split at h
    · exact Except.noConfusion h
    · rename_i rows hrows
      injection h with h2
      exact ⟨cm, rows, hcm, hrows, h2.symm⟩

theorem docxRow_ok_inv {cm : CatModule} {c : Str × CriterionResult} {row : List Str}
    (h : docxRow cm c = .ok row) :
    ∃ text, alookup cm.criteria c.1 = some text ∧
      row = [c.1 ++ [32] ++ text, intToStr c.2.rating, pyOr c.2.comment []] := by
  unfold docxRow at h
  split at h
  · exact Except.noConfusion h
  · rename_i text htext
    injection h with h2
    exact ⟨text, htext, h2.symm⟩

theorem pdfModuleLines_ok_inv {p : Str × ModuleResult} {ml : List Str}
    (h : pdfModuleLines p = .ok ml) :
    ∃ cm crit, alookup BLI_DATA p.1 = some cm ∧
      exMapM (pdfCriterionBlock cm) p.2.criteria = .ok crit ∧
      ml = (p.1 ++ strLit " – " ++ cm.title) :: crit.flatten := by
  unfold pdfModuleLines at h
  split at h
  · exact Except.noConfusion h
  · rename_i cm hcm
    split at h
    · exact Except.noConfusion h
    · rename_i crit hcrit
      injection h with h2
      exact ⟨cm, crit, hcm, hcrit, h2.symm⟩

theorem exportData_ok_inv {form : ObservationForm} {v : JValue}
    (h : exportData form = .ok v) :
    ∃ mods, exMapM moduleJson form.modules = .ok mods ∧
      v = JValue.jobj
        [ (strLit "date", JValue.jstr form.date),
          (strLit "colleague", JValue.jstr form.colleague),
          (strLit "subject", JValue.jstr form.subject),
          (strLit "grade", JValue.jstr form.grade),
          (strLit "topic", JValue.jstr form.topic),
          (strLit "observer", JValue.jstr form.observer),
          (strLit "school", JValue.jstr form.school),
          (strLit "profile_focus", JValue.jarr (form.profile_focus.map JValue.jstr)),
          (strLit "weights", JValue.jobj
            (form.weights.map (fun p => (p.1, JValue.jdec p.2.m p.2.k)))),
          (strLit "modules", JValue.jobj mods),
          (strLit "strengths", JValue.jstr form.strengths),
          (strLit "next_steps", JValue.jstr form.next_steps) ] := by
  unfold exportData at h
  split at h
  · exact Except.noConfusion h
  · rename_i mods hmods
    injection h with h2
    exact ⟨mods, hmods, h2.symm⟩

theorem moduleJson_ok_inv {p : Str × ModuleResult} {mj : Str × JValue}
    (h : moduleJson p = .ok mj) :
    ∃ cm crits, alookup BLI_DATA p.1 = some cm ∧
      exMapM (criterionJson cm) p.2.criteria = .ok crits ∧
      mj = (p.1, JValue.jobj
        [ (strLit "title", JValue.jstr cm.title),
          (strLit "criteria", JValue.jobj crits) ]) := by
  unfold moduleJson at h
  split at h
  · exact Except.noConfusion h
  · rename_i cm hcm
    split at h
    · exact Except.noConfusion h
    · rename_i crits hcrits
      injection h with h2
      exact ⟨cm, crits, hcm, hcrits, h2.symm⟩

theorem criterionJson_ok_inv {cm : CatModule} {c : Str × CriterionResult}
    {cj : Str × JValue} (h : criterionJson cm c = .ok cj) :
    ∃ text, alookup cm.criteria c.1 = some text ∧
      cj = (c.1, JValue.jobj
        [ (strLit "text", JValue.jstr text),
          (strLit "rating", JValue.jint c.2.rating),
          (strLit "comment", JValue.jstr c.2.comment) ]) := by
  unfold criterionJson at h
  split at h
  · exact Except.noConfusion h
  · rename_i text htext
    injection h with h2
    exact ⟨text, htext, h2.symm⟩

/-- C3: when the record references a module id absent from the catalog, all
three export operations fail with the KeyError raised by the catalog
subscript — the failure the design names InvalidRecord — rather than
succeeding (this is the only failure mode the renderers have). -/
theorem C3_unknown_module_fails (form : ObservationForm) (mk : Str)
    (mod : ModuleResult) (hm : (mk, mod) ∈ form.modules)
    (hcat : alookup BLI_DATA mk = none) :
    (∃ k, export_docx form = .error (ExportError.keyError k)) ∧
    (∃ k, export_pdf form = .error (ExportError.keyError k)) ∧
    (∃ k, export_json form = .error (ExportError.keyError k)) := by
  refine ⟨?_, ?_, ?_⟩
  · obtain ⟨e, he⟩ := exMapM_error_of_mem hm (docxModuleBlocks_error hcat)
    cases e with
    | keyError k => exact ⟨k, by rw [export_docx, he]⟩
  · obtain ⟨e, he⟩ := exMapM_error_of_mem hm (pdfModuleLines_error hcat)
    cases e with
    | keyError k => exact ⟨k, by rw [export_pdf, pdfTexts, he]; rfl⟩
  · obtain ⟨e, he⟩ := exMapM_error_of_mem hm (moduleJson_error hcat)
    cases e with
    | keyError k => exact ⟨k, by rw [export_json, exportData, he]; rfl⟩

/-- C3 witness: the record referencing M9 makes all three exporters fail. -/
theorem C3_witness :
    (∃ k, export_docx c3form = .error (ExportError.keyError k)) ∧
    (∃ k, export_pdf c3form = .error (ExportError.keyError k)) ∧
    (∃ k, export_json c3form = .error (ExportError.keyError k)) :=
  C3_unknown_module_fails c3form (strLit "M9")
    { module_key := strLit "M9", criteria := [] } (by decide) (by decide)

/-- C7: none of the three renderers mutates the input record: in their
state-threaded form (the Python bodies contain only field reads, no
assignment to the record), the record component of the result equals the
input record. -/
theorem C7_renderers_frame (form : ObservationForm) :
    (export_docx_proc.run form).2 = form ∧
    (export_pdf_proc.run form).2 = form ∧
    (export_json_proc.run form).2 = form :=
  ⟨rfl, rfl, rfl⟩

/-- C9: when strengths or next-steps is the empty string, the document and
PDF renderers emit the literal placeholder "-" for that field; a criterion
with an empty comment gets an empty comment cell in the document table and
no comment line (hence no placeholder) in the PDF. -/
theorem C9_empty_placeholders (form : ObservationForm) :
    (∀ blocks, export_docx form = Except.ok blocks →
      (form.strengths = [] → ∃ pre post, blocks =
        pre ++ [DocxBlock.heading 2 (strLit "Stärken"),
          DocxBlock.paragraph (strLit "-")] ++ post) ∧
      (form.next_steps = [] → ∃ pre post, blocks =
        pre ++ [DocxBlock.heading 2 (strLit "Nächste Schritte (konkret, terminiert)"),
          DocxBlock.paragraph (strLit "-")] ++ post) ∧
      (∀ mk mod, (mk, mod) ∈ form.modules → ∀ ck c, (ck, c) ∈ mod.criteria →
        c.comment = [] → ∃ hdr rows text, DocxBlock.table hdr rows ∈ blocks ∧
          [ck ++ [32] ++ text, intToStr c.rating, []] ∈ rows)) ∧
    (∀ ls, pdfTexts form = Except.ok ls →
      (form.strengths = [] → ∃ pre post, ls =
        pre ++ [strLit "Stärken", strLit "-"] ++ post) ∧
      (form.next_steps = [] → ∃ pre post, ls =
        pre ++ [strLit "Nächste Schritte (konkret, terminiert)", strLit "-"] ++ post)) ∧
    (∀ text (c : Str × CriterionResult), c.2.comment = [] →
      pdfCriterionLines text c =
        [c.1 ++ [32] ++ text,
         strLit "  Bewertung: " ++ intToStr c.2.rating ++ strLit "/4"]) := by
  refine ⟨?_, ?_, ?_⟩
  · intro blocks h
    obtain ⟨mbs, hmbs, hb⟩ := export_docx_ok_inv h
    subst hb
    refine ⟨?_, ?_, ?_⟩
    · intro hs
      refine ⟨docxMetaBlocks form ++ mbs.flatten,
        [DocxBlock.heading 2 (strLit "Nächste Schritte (konkret, terminiert)"),
         DocxBlock.paragraph (pyOr form.next_steps (strLit "-"))] ++
          docxScoreBlocks form, ?_⟩
      rw [hs]
      simp [pyOr, List.append_assoc]
    · intro hn
      refine ⟨docxMetaBlocks form ++ mbs.flatten ++
        [DocxBlock.heading 2 (strLit "Stärken"),
         DocxBlock.paragraph (pyOr form.strengths (strLit "-"))],
        docxScoreBlocks form, ?_⟩
      rw [hn]
      simp [pyOr, List.append_assoc]
    · intro mk mod hmem ck c hcmem hcom
      obtain ⟨mb, hmbmem, hmb⟩ := exMapM_ok_mem hmbs hmem
      obtain ⟨cm, rows, _, hrows, hmb2⟩ := docxModuleBlocks_ok_inv hmb
      obtain ⟨row, hrowmem, hrow⟩ := exMapM_ok_mem hrows hcmem
      obtain ⟨text, _, hrow2⟩ := docxRow_ok_inv hrow
      refine ⟨[strLit "Kriterium", strLit "Bewertung (0–4)", strLit "Kommentar/Hinweis"],
        rows, text, ?_, ?_⟩
      · have htab : DocxBlock.table
            [strLit "Kriterium", strLit "Bewertung (0–4)", strLit "Kommentar/Hinweis"]
            rows ∈ mbs.flatten := by
          apply List.mem_flatten.mpr
          exact ⟨mb, hmbmem, by rw [hmb2]; simp⟩
        exact List.mem_append_left _
          (List.mem_append_left _ (List.mem_append_right _ htab))
      · have : row = [ck ++ [32] ++ text, intToStr c.rating, []] := by
          rw [hrow2, hcom]
          simp [pyOr]
        exact this ▸ hrowmem
  · intro ls h
    obtain ⟨mls, hmls, hl⟩ := pdfTexts_ok_inv h
    subst hl
    constructor
    · intro hs
      refine ⟨strLit "Hospitationsbogen – BLI 3.0" ::
        (pdfMetaLines form ++ mls.flatten),
        [strLit "Nächste Schritte (konkret, terminiert)",
         pyOr form.next_steps (strLit "-")] ++ pdfScoreLines form, ?_⟩
      rw [hs]
      simp [pyOr, List.append_assoc]
    · intro hn
      refine ⟨strLit "Hospitationsbogen – BLI 3.0" ::
        (pdfMetaLines form ++ mls.flatten ++
          [strLit "Stärken", pyOr form.strengths (strLit "-")]),
        pdfScoreLines form, ?_⟩
      rw [hn]
      simp [pyOr, List.append_assoc]
  · intro text c hcom
    simp [pdfCriterionLines, hcom]

/-- C9 witness: the placeholder theorem applied to the concrete record with
empty strengths, next-steps and criterion comment. -/
theorem C9_witness : ∃ blocks ls,
    export_docx c9form = Except.ok blocks ∧ pdfTexts c9form = Except.ok ls ∧
    (∃ pre post, blocks = pre ++ [DocxBlock.heading 2 (strLit "Stärken"),
      DocxBlock.paragraph (strLit "-")] ++ post) ∧
    (∃ pre post, ls = pre ++ [strLit "Stärken", strLit "-"] ++ post) ∧
    pdfCriterionLines (strLit "Kompetenzziele sind für Lernende transparent.")
        (strLit "1.1", { rating := 2, comment := [] }) =
      [strLit "1.1" ++ [32] ++ strLit "Kompetenzziele sind für Lernende transparent.",
       strLit "  Bewertung: " ++ intToStr 2 ++ strLit "/4"] := by
  have hmbs : exMapM docxModuleBlocks c9form.modules = Except.ok
      [[ DocxBlock.heading 2 (strLit "M1" ++ strLit " – " ++
           strLit "Schülerinnen und Schüler aktivieren"),
         DocxBlock.table
           [strLit "Kriterium", strLit "Bewertung (0–4)", strLit "Kommentar/Hinweis"]
           [[strLit "1.1" ++ [32] ++
               strLit "Kompetenzziele sind für Lernende transparent.",
             intToStr 2, []]],
         DocxBlock.paragraph [] ]] := rfl
  have hmls : exMapM pdfModuleLines c9form.modules = Except.ok
      [ (strLit "M1" ++ strLit " – " ++
          strLit "Schülerinnen und Schüler aktivieren") ::
        [[strLit "1.1" ++ [32] ++
            strLit "Kompetenzziele sind für Lernende transparent.",
          strLit "  Bewertung: " ++ intToStr 2 ++ strLit "/4"]].flatten ] := rfl
  have hdocx : export_docx c9form = Except.ok (docxMetaBlocks c9form ++
      [[ DocxBlock.heading 2 (strLit "M1" ++ strLit " – " ++
           strLit "Schülerinnen und Schüler aktivieren"),
         DocxBlock.table
           [strLit "Kriterium", strLit "Bewertung (0–4)", strLit "Kommentar/Hinweis"]
           [[strLit "1.1" ++ [32] ++
               strLit "Kompetenzziele sind für Lernende transparent.",
             intToStr 2, []]],
         DocxBlock.paragraph [] ]].flatten ++
      [ DocxBlock.heading 2 (strLit "Stärken"),
        DocxBlock.paragraph (pyOr c9form.strengths (strLit "-")),
        DocxBlock.heading 2 (strLit "Nächste Schritte (konkret, terminiert)"),
        DocxBlock.paragraph (pyOr c9form.next_steps (strLit "-")) ] ++
      docxScoreBlocks c9form) := by
    rw [export_docx, hmbs]
  have hpdf : pdfTexts c9form = Except.ok
      (strLit "Hospitationsbogen – BLI 3.0" ::
        (pdfMetaLines c9form ++
        [ (strLit "M1" ++ strLit " – " ++
            strLit "Schülerinnen und Schüler aktivieren") ::
          [[strLit "1.1" ++ [32] ++
              strLit "Kompetenzziele sind für Lernende transparent.",
            strLit "  Bewertung: " ++ intToStr 2 ++ strLit "/4"]].flatten ].flatten ++
        [ strLit "Stärken", pyOr c9form.strengths (strLit "-"),
          strLit "Nächste Schritte (konkret, terminiert)",
          pyOr c9form.next_steps (strLit "-") ] ++
        pdfScoreLines c9form)) := by
    rw [pdfTexts, hmls]
  obtain ⟨hd1, _, _⟩ := (C9_empty_placeholders c9form).1 _ hdocx
  obtain ⟨hp1, _⟩ := (C9_empty_placeholders c9form).2.1 _ hpdf
  exact ⟨_, _, hdocx, hpdf, hd1 rfl, hp1 rfl,
    (C9_empty_placeholders c9form).2.2
      (strLit "Kompetenzziele sind für Lernende transparent.")
      (strLit "1.1", { rating := 2, comment := [] }) rfl⟩

-- ===================== PDF text lemmas (claim C2) ========================

theorem joinSep_cons (sep s : Str) (t : List Str) (h : t ≠ []) :
    joinSep sep (s :: t) = s ++ sep ++ joinSep sep t := by
  cases t with
  | nil => exact absurd rfl h
  | cons a t2 => rfl

theorem latin1Ignore_append (a b : Str) :
    latin1Ignore (a ++ b) = latin1Ignore a ++ latin1Ignore b := by
  unfold latin1Ignore
  exact List.filter_append _ _

theorem isPrefixList_append_self : ∀ p q : List Nat,
    isPrefixList p (p ++ q) = true := by
  intro p q
  induction p with
  | nil => rfl
  | cons a t ih => simp [isPrefixList, ih]

theorem format2_zero : format2 (0 : ℚ) = strLit "0.00" := by
  have hr : roundHE ((0 : ℚ) * 100) = 0 := by
    unfold roundHE
    norm_num
  simp only [format2, hr]
  decide

theorem pdfScoreLines_empty : pdfScoreLines emptyForm =
    [strLit "Zusammenfassung (Scores)",
     strLit "Gesamt (gewichtet): 0.00 / 4"] := by
  unfold pdfScoreLines
  rw [show compute_scores emptyForm = ([], (0:ℚ)) from rfl]
  dsimp only
  rw [format2_zero]
  decide

theorem pdfTexts_emptyForm : pdfTexts emptyForm = Except.ok
    [strLit "Hospitationsbogen – BLI 3.0",
     strLit "Datum: ", strLit "Kolleg*in: ", strLit "Beobachter*in: ",
     strLit "Fach/Klasse/Thema:  /  / ",
     strLit "Stärken", strLit "-",
     strLit "Nächste Schritte (konkret, terminiert)", strLit "-",
     strLit "Zusammenfassung (Scores)",
     strLit "Gesamt (gewichtet): 0.00 / 4"] := by
  rw [pdfTexts, show exMapM pdfModuleLines emptyForm.modules = Except.ok [] from rfl]
  dsimp only
  rw [pdfScoreLines_empty]
  rfl

theorem export_pdf_emptyForm : export_pdf emptyForm = Except.ok c2bytes ∧
    c2bytes = latin1Ignore (joinSep [10]
      [strLit "Hospitationsbogen – BLI 3.0",
       strLit "Datum: ", strLit "Kolleg*in: ", strLit "Beobachter*in: ",
       strLit "Fach/Klasse/Thema:  /  / ",
       strLit "Stärken", strLit "-",
       strLit "Nächste Schritte (konkret, terminiert)", strLit "-",
       strLit "Zusammenfassung (Scores)",
       strLit "Gesamt (gewichtet): 0.00 / 4"]) := by
  have hb : export_pdf emptyForm = Except.ok (latin1Ignore (joinSep [10]
      [strLit "Hospitationsbogen – BLI 3.0",
       strLit "Datum: ", strLit "Kolleg*in: ", strLit "Beobachter*in: ",
       strLit "Fach/Klasse/Thema:  /  / ",
       strLit "Stärken", strLit "-",
       strLit "Nächste Schritte (konkret, terminiert)", strLit "-",
       strLit "Zusammenfassung (Scores)",
       strLit "Gesamt (gewichtet): 0.00 / 4"])) := by
    rw [export_pdf, pdfTexts_emptyForm]
    rfl
  have hc : c2bytes = latin1Ignore (joinSep [10]
      [strLit "Hospitationsbogen – BLI 3.0",
       strLit "Datum: ", strLit "Kolleg*in: ", strLit "Beobachter*in: ",
       strLit "Fach/Klasse/Thema:  /  / ",
       strLit "Stärken", strLit "-",
       strLit "Nächste Schritte (konkret, terminiert)", strLit "-",
       strLit "Zusammenfassung (Scores)",
       strLit "Gesamt (gewichtet): 0.00 / 4"]) := by
    rw [c2bytes, hb]
  exact ⟨hc ▸ hb, hc⟩

/-- C2 counterexample: export_pdf applies no transliteration.  For the
empty record it succeeds, but the byte payload does not contain the
transliterated title (the spec substitution set maps the en dash to a
minus); the en dash is silently dropped by encode latin-1 with
errors ignore instead. -/
theorem C2_counterexample :
    export_pdf emptyForm = Except.ok c2bytes ∧
    isSubList (specTranslit (strLit "Hospitationsbogen – BLI 3.0"))
      c2bytes = false := by
  refine ⟨export_pdf_emptyForm.1, ?_⟩
  rw [export_pdf_emptyForm.2]
  decide

theorem pdfMetaLines_ne_nil (form : ObservationForm) : pdfMetaLines form ≠ [] := by
  unfold pdfMetaLines
  intro h
  have := congrArg List.length h
  simp [List.length_append] at this

/-- C2 (amended): export_pdf has no font logic at all — it unconditionally
renders with the built-in Helvetica core font and never fails for font
reasons (its only failure is the catalog KeyError).  Whenever it succeeds
the payload is non-empty and, because the final encode latin-1 with errors
ignore silently drops the en dash, the payload begins with the
dash-stripped title "Hospitationsbogen  BLI 3.0" rather than the
spec-transliterated "Hospitationsbogen - BLI 3.0". -/
theorem C2_pdf_no_font_fallback (form : ObservationForm) (bs : List Nat)
    (h : export_pdf form = .ok bs) :
    bs ≠ [] ∧ isPrefixList (strLit "Hospitationsbogen  BLI 3.0") bs = true := by
  unfold export_pdf at h
  cases hp : pdfTexts form with
  | error e => rw [hp] at h; exact Except.noConfusion h
  | ok ls =>
    rw [hp] at h
    have h2 : (Except.ok (latin1Ignore (joinSep [10] ls)) :
        Except ExportError (List Nat)) = Except.ok bs := h
    injection h2 with h3
    obtain ⟨mls, hmls, hls⟩ := pdfTexts_ok_inv hp
    subst hls
    have hrest : (pdfMetaLines form ++ mls.flatten ++
        [ strLit "Stärken", pyOr form.strengths (strLit "-"),
          strLit "Nächste Schritte (konkret, terminiert)",
          pyOr form.next_steps (strLit "-") ] ++
        pdfScoreLines form) ≠ [] := by
      intro hx
      have h4 := congrArg List.length hx
      simp only [List.length_append, List.length_nil] at h4
      have h5 := pdfMetaLines_ne_nil form
      cases hm : pdfMetaLines form with
      | nil => exact h5 hm
      | cons a t => rw [hm] at h4; simp at h4
    rw [joinSep_cons _ _ _ hrest] at h3
    rw [latin1Ignore_append, latin1Ignore_append] at h3
    have ht : latin1Ignore (strLit "Hospitationsbogen – BLI 3.0") =
        strLit "Hospitationsbogen  BLI 3.0" := by decide
    rw [ht] at h3
    subst h3
    constructor
    · apply List.append_ne_nil_of_left_ne_nil
      apply List.append_ne_nil_of_left_ne_nil
      decide
    · rw [List.append_assoc]
      exact isPrefixList_append_self _ _

/-- C2 witness for the amended theorem: the empty record, whose PDF payload
is non-empty and starts with the dash-stripped title. -/
theorem C2_witness :
    c2bytes ≠ [] ∧
    isPrefixList (strLit "Hospitationsbogen  BLI 3.0") c2bytes = true :=
  C2_pdf_no_font_fallback emptyForm c2bytes export_pdf_emptyForm.1

-- ===================== Digit value lemmas ================================

theorem natDigits_all_digits (n : Nat) :
    ∀ c ∈ natDigits n, 48 ≤ c ∧ c ≤ 57 := by
  induction n using Nat.strong_induction_on with
  | _ n ih =>
    rw [natDigits_eq]
    by_cases hn : n < 10
    · rw [if_pos hn]
      intro c hc
      simp at hc
      omega
    · rw [if_neg hn]
      intro c hc
      rcases List.mem_append.mp hc with h | h
      · exact ih (n / 10) (Nat.div_lt_self (by omega) (by omega)) c h
      · simp at h
        have := Nat.mod_lt n (show 0 < 10 by omega)
        omega

theorem natDigits_ne_nil (n : Nat) : natDigits n ≠ [] := by
  rw [natDigits_eq]
  by_cases hn : n < 10
  · rw [if_pos hn]; simp
  · rw [if_neg hn]; simp

theorem natDigits_foldl (n : Nat) : ∀ acc : Nat,
    (natDigits n).foldl (fun a c => a * 10 + (c - 48)) acc =
      acc * 10 ^ (natDigits n).length + n := by
  induction n using Nat.strong_induction_on with
  | _ n ih =>
    intro acc
    rw [natDigits_eq]
    by_cases hn : n < 10
    · rw [if_pos hn]
      simp [List.foldl]
    · rw [if_neg hn]
      rw [List.foldl_append, ih (n / 10) (Nat.div_lt_self (by omega) (by omega))]
      simp only [List.foldl, List.length_append, List.length_cons, List.length_nil]
      have h1 : 48 + n % 10 - 48 = n % 10 := by omega
      rw [h1, pow_succ]
      have h2 : n / 10 * 10 + n % 10 = n := by omega
      ring_nf
      omega

theorem natDigits_length_le {f k : Nat} (hk : 1 ≤ k) (hf : f < 10 ^ k) :
    (natDigits f).length ≤ k := by
  induction f using Nat.strong_induction_on generalizing k with
  | _ f ih =>
    rw [natDigits_eq]
    by_cases hn : f < 10
    · rw [if_pos hn]; simpa using hk
    · rw [if_neg hn]
      cases k with
      | zero => omega
      | succ k2 =>
        have hk2 : 1 ≤ k2 := by
          rcases Nat.eq_zero_or_pos k2 with h | h
          · subst h; simp at hf; omega
          · exact h
        have hdiv : f / 10 < 10 ^ k2 := by
          rw [Nat.div_lt_iff_lt_mul (by norm_num)]
          calc f < 10 ^ (k2 + 1) := hf
            _ = 10 ^ k2 * 10 := by rw [pow_succ]
        have := ih (f / 10) (Nat.div_lt_self (by omega) (by omega)) hk2 hdiv
        simp only [List.length_append, List.length_cons, List.length_nil]
        omega

theorem replicate_foldl (z acc : Nat) :
    (List.replicate z 48).foldl (fun a c => a * 10 + (c - 48)) acc =
      acc * 10 ^ z := by
  induction z generalizing acc with
  | zero => simp
  | succ z2 ih =>
    rw [List.replicate_succ, List.foldl_cons, ih]
    have : acc * 10 + (48 - 48) = acc * 10 := by omega
    rw [this, pow_succ]
    ring

theorem padDigits_all_digits (k f : Nat) :
    ∀ c ∈ padDigits k f, 48 ≤ c ∧ c ≤ 57 := by
  intro c hc
  unfold padDigits at hc
  rcases List.mem_append.mp hc with h | h
  · have := List.eq_of_mem_replicate h
    omega
  · exact natDigits_all_digits f c h

theorem padDigits_length {k f : Nat} (hk : 1 ≤ k) (hf : f < 10 ^ k) :
    (padDigits k f).length = k := by
  unfold padDigits
  rw [List.length_append, List.length_replicate]
  have := natDigits_length_le hk hf
  omega

theorem padDigits_foldl (k f : Nat) :
    (padDigits k f).foldl (fun a c => a * 10 + (c - 48)) 0 = f := by
  unfold padDigits
  rw [List.foldl_append, replicate_foldl, natDigits_foldl]
  simp

theorem parseDigits_append : ∀ (ds : Str), (∀ c ∈ ds, 48 ≤ c ∧ c ≤ 57) →
    ∀ (rest : Str), noDigitHead rest → ∀ acc cnt,
    parseDigits (ds ++ rest) acc cnt =
      (ds.foldl (fun a c => a * 10 + (c - 48)) acc, cnt + ds.length, rest) := by
  intro ds
  induction ds with
  | nil =>
    intro _ rest hrest acc cnt
    cases rest with
    | nil => rfl
    | cons c t =>
      simp only [List.nil_append, parseDigits]
      rw [if_neg hrest]
      simp
  | cons d ds2 ih =>
    intro hds rest hrest acc cnt
    have hd := hds d (List.mem_cons_self _ _)
    simp only [List.cons_append, parseDigits]
    rw [if_pos hd]
    simp only [List.append_eq]
    rw [ih (fun c hc => hds c (List.mem_cons_of_mem _ hc)) rest hrest]
    simp only [List.foldl_cons, List.length_cons]
    have : cnt + 1 + ds2.length = cnt + (ds2.length + 1) := by omega
    rw [this]

theorem stops_noDigitHead {rest : Str} (h : stops rest = true) :
    noDigitHead rest := by
  cases rest with
  | nil => trivial
  | cons c t =>
    simp only [stops, Bool.or_eq_true, beq_iff_eq] at h
    simp only [noDigitHead]
    omega

theorem natDigits_cons (a : Nat) : ∃ c0 t0, natDigits a = c0 :: t0 ∧
    48 ≤ c0 ∧ c0 ≤ 57 := by
  cases hh : natDigits a with
  | nil => exact absurd hh (natDigits_ne_nil _)
  | cons c0 t0 =>
    have := natDigits_all_digits a c0 (by rw [hh]; exact List.mem_cons_self _ _)
    exact ⟨c0, t0, rfl, this.1, this.2⟩

theorem parseNumberCore_int (neg : Bool) (a : Nat) (rest : Str)
    (h : stops rest = true) :
    parseNumberCore neg (natDigits a ++ rest) =
      some (JValue.jint (if neg then -(a : Int) else (a : Int)), rest) := by
  obtain ⟨l2, hl⟩ : ∃ l2, (natDigits a).length = l2 + 1 := by
    obtain ⟨c0, t0, hct, _, _⟩ := natDigits_cons a
    exact ⟨t0.length, by rw [hct]; rfl⟩
  unfold parseNumberCore
  rw [parseDigits_append _ (natDigits_all_digits _) _ (stops_noDigitHead h),
    natDigits_foldl, hl]
  simp only [zero_mul, Nat.zero_add, zero_add]
  cases rest with
  | nil => rfl
  | cons c t =>
    have hc : c = 44 ∨ c = 10 ∨ c = 93 ∨ c = 125 := by
      simp only [stops, Bool.or_eq_true, beq_iff_eq] at h
      tauto
    rcases hc with rfl | rfl | rfl | rfl <;> rfl

theorem parseNumber_int (n : Int) (rest : Str) (h : stops rest = true) :
    parseNumber (intToStr n ++ rest) = some (JValue.jint n, rest) := by
  unfold intToStr
  by_cases hn : n < 0
  · rw [if_pos hn]
    show parseNumberCore true (natDigits n.natAbs ++ rest) = _
    rw [parseNumberCore_int _ _ _ h]
    simp only [if_pos rfl, Option.some.injEq, Prod.mk.injEq, and_true, if_true]
    congr 1
    omega
  · rw [if_neg hn]
    obtain ⟨c0, t0, hct, hc1, hc2⟩ := natDigits_cons n.natAbs
    rw [hct, List.cons_append]
    show parseNumber (c0 :: (t0 ++ rest)) = _
    unfold parseNumber
    split
    · rename_i t heq
      rw [List.cons.injEq] at heq
      omega
    · rw [← List.cons_append, ← hct, parseNumberCore_int _ _ _ h]
      simp only [Bool.false_eq_true, if_false, Option.some.injEq, Prod.mk.injEq, and_true]
      congr 1
      omega

theorem parseNumberCore_dec (neg : Bool) (a k : Nat) (hk : 1 ≤ k) (rest : Str)
    (h : stops rest = true) :
    parseNumberCore neg
      (natDigits (a / 10 ^ k) ++ (46 :: (padDigits k (a % 10 ^ k) ++ rest))) =
      some (JValue.jdec ((if neg then -1 else 1) * (a : Int)) k, rest) := by
  obtain ⟨l2, hl⟩ : ∃ l2, (natDigits (a / 10 ^ k)).length = l2 + 1 := by
    obtain ⟨c0, t0, hct, _, _⟩ := natDigits_cons (a / 10 ^ k)
    exact ⟨t0.length, by rw [hct]; rfl⟩
  obtain ⟨k2, hk2⟩ : ∃ k2, k = k2 + 1 := ⟨k - 1, by omega⟩
  subst hk2
  have hmod : a % 10 ^ (k2 + 1) < 10 ^ (k2 + 1) :=
    Nat.mod_lt _ (pow_pos (by norm_num) _)
  have hnd : noDigitHead (46 :: (padDigits (k2 + 1) (a % 10 ^ (k2 + 1)) ++ rest)) := by
    simp [noDigitHead]
  unfold parseNumberCore
  rw [parseDigits_append _ (natDigits_all_digits _) _ hnd, natDigits_foldl, hl]
  dsimp only
  rw [parseDigits_append _ (padDigits_all_digits _ _) _ (stops_noDigitHead h),
    padDigits_foldl, padDigits_length hk hmod]
  dsimp only
  have hva : a / 10 ^ (k2 + 1) * 10 ^ (k2 + 1) + a % 10 ^ (k2 + 1) = a :=
    Nat.div_add_mod' a (10 ^ (k2 + 1))
  have hz : (0 : Nat) * 10 ^ (l2 + 1) + a / 10 ^ (k2 + 1) = a / 10 ^ (k2 + 1) := by
    omega
  simp only [Nat.add_eq, Nat.zero_add]
  rw [hz, hva]

theorem parseNumber_dec (m : Int) (k : Nat) (hk : 1 ≤ k) (rest : Str)
    (h : stops rest = true) :
    parseNumber (decToStr m k ++ rest) = some (JValue.jdec m k, rest) := by
  unfold decToStr
  by_cases hm : m < 0
  · rw [if_pos hm]
    have hsh : (([45] ++ natDigits (m.natAbs / 10 ^ k) ++ [46] ++
        padDigits k (m.natAbs % 10 ^ k)) ++ rest) =
        45 :: (natDigits (m.natAbs / 10 ^ k) ++
          (46 :: (padDigits k (m.natAbs % 10 ^ k) ++ rest))) := by
      simp [List.append_assoc]
    rw [hsh]
    show parseNumberCore true (natDigits (m.natAbs / 10 ^ k) ++
      (46 :: (padDigits k (m.natAbs % 10 ^ k) ++ rest))) = _
    rw [parseNumberCore_dec true _ k hk rest h]
    simp only [if_pos rfl, Option.some.injEq, Prod.mk.injEq, and_true,
      JValue.jdec.injEq, if_true]
    omega
  · rw [if_neg hm]
    obtain ⟨c0, t0, hct, hc1, hc2⟩ := natDigits_cons (m.natAbs / 10 ^ k)
    have hsh : (([] ++ natDigits (m.natAbs / 10 ^ k) ++ [46] ++
        padDigits k (m.natAbs % 10 ^ k)) ++ rest) =
        c0 :: (t0 ++ (46 :: (padDigits k (m.natAbs % 10 ^ k) ++ rest))) := by
      rw [hct]
      simp [List.append_assoc]
    rw [hsh]
    unfold parseNumber
    split
    · rename_i t heq
      rw [List.cons.injEq] at heq
      omega
    · have hback : c0 :: (t0 ++ (46 :: (padDigits k (m.natAbs % 10 ^ k) ++ rest))) =
          natDigits (m.natAbs / 10 ^ k) ++
            (46 :: (padDigits k (m.natAbs % 10 ^ k) ++ rest)) := by
        rw [hct]
        simp
      rw [hback, parseNumberCore_dec false _ k hk rest h]
      simp only [Bool.false_eq_true, if_false, Option.some.injEq, Prod.mk.injEq,
        and_true, JValue.jdec.injEq]
      omega

theorem hexVal_hexDigit (d : Nat) (hd : d < 16) : hexVal (hexDigit d) = some d := by
  unfold hexDigit hexVal
  by_cases h : d < 10
  · rw [if_pos h, if_pos (by omega)]
    congr 1
    omega
  · rw [if_neg h, if_neg (by omega), if_pos (by omega)]
    congr 1
    omega


theorem escChar_length_pos (c : Nat) : 1 ≤ (escChar c).length := by
  unfold escChar
  split_ifs <;> simp

theorem escapeStr_length_ge (s : Str) : s.length ≤ (escapeStr s).length := by
  induction s with
  | nil => simp [escapeStr]
  | cons c s2 ih =>
    have hs : escapeStr (c :: s2) = escChar c ++ escapeStr s2 := rfl
    rw [hs, List.length_append, List.length_cons]
    have := escChar_length_pos c
    omega

theorem parseStringBody_escape : ∀ (s : Str) (fuel : Nat) (rest : Str),
    s.length + 1 ≤ fuel →
    parseStringBody fuel (escapeStr s ++ 34 :: rest) = some (s, rest) := by
  intro s
  induction s with
  | nil =>
    intro fuel rest hf
    obtain ⟨f, rfl⟩ : ∃ f, fuel = f + 1 := ⟨fuel - 1, by omega⟩
    rfl
  | cons c s2 ih =>
    intro fuel rest hf
    obtain ⟨f, rfl⟩ : ∃ f, fuel = f + 1 := ⟨fuel - 1, by omega⟩
    have hff : s2.length + 1 ≤ f := by
      simp only [List.length_cons] at hf
      omega
    have hesc : escapeStr (c :: s2) ++ 34 :: rest =
        escChar c ++ (escapeStr s2 ++ 34 :: rest) := by
      show (escChar c ++ escapeStr s2) ++ 34 :: rest = _
      rw [List.append_assoc]
    rw [hesc]
    by_cases h34 : c = 34
    · subst h34
      show parseStringBody (f + 1) (92 :: 34 :: (escapeStr s2 ++ 34 :: rest)) = _
      have hstep : parseStringBody (f + 1) (92 :: 34 :: (escapeStr s2 ++ 34 :: rest)) =
          (parseStringBody f (escapeStr s2 ++ 34 :: rest)).map
            (fun p => (34 :: p.1, p.2)) := rfl
      rw [hstep, ih f rest hff]
      rfl
    · by_cases h92 : c = 92
      · subst h92
        show parseStringBody (f + 1) (92 :: 92 :: (escapeStr s2 ++ 34 :: rest)) = _
        have hstep : parseStringBody (f + 1) (92 :: 92 :: (escapeStr s2 ++ 34 :: rest)) =
            (parseStringBody f (escapeStr s2 ++ 34 :: rest)).map
              (fun p => (92 :: p.1, p.2)) := rfl
        rw [hstep, ih f rest hff]
        rfl
      · by_cases h10 : c = 10
        · subst h10
          show parseStringBody (f + 1) (92 :: 110 :: (escapeStr s2 ++ 34 :: rest)) = _
          have hstep : parseStringBody (f + 1)
              (92 :: 110 :: (escapeStr s2 ++ 34 :: rest)) =
              (parseStringBody f (escapeStr s2 ++ 34 :: rest)).map
                (fun p => (10 :: p.1, p.2)) := rfl
          rw [hstep, ih f rest hff]
          rfl
        · by_cases h13 : c = 13
          · subst h13
            show parseStringBody (f + 1) (92 :: 114 :: (escapeStr s2 ++ 34 :: rest)) = _
            have hstep : parseStringBody (f + 1)
                (92 :: 114 :: (escapeStr s2 ++ 34 :: rest)) =
                (parseStringBody f (escapeStr s2 ++ 34 :: rest)).map
                  (fun p => (13 :: p.1, p.2)) := rfl
            rw [hstep, ih f rest hff]
            rfl
          · by_cases h9 : c = 9
            · subst h9
              show parseStringBody (f + 1) (92 :: 116 :: (escapeStr s2 ++ 34 :: rest)) = _
              have hstep : parseStringBody (f + 1)
                  (92 :: 116 :: (escapeStr s2 ++ 34 :: rest)) =
                  (parseStringBody f (escapeStr s2 ++ 34 :: rest)).map
                    (fun p => (9 :: p.1, p.2)) := rfl
              rw [hstep, ih f rest hff]
              rfl
            · by_cases h8 : c = 8
              · subst h8
                show parseStringBody (f + 1) (92 :: 98 :: (escapeStr s2 ++ 34 :: rest)) = _
                have hstep : parseStringBody (f + 1)
                    (92 :: 98 :: (escapeStr s2 ++ 34 :: rest)) =
                    (parseStringBody f (escapeStr s2 ++ 34 :: rest)).map
                      (fun p => (8 :: p.1, p.2)) := rfl
                rw [hstep, ih f rest hff]
                rfl
              · by_cases h12 : c = 12
                · subst h12
                  show parseStringBody (f + 1)
                    (92 :: 102 :: (escapeStr s2 ++ 34 :: rest)) = _
                  have hstep : parseStringBody (f + 1)
                      (92 :: 102 :: (escapeStr s2 ++ 34 :: rest)) =
                      (parseStringBody f (escapeStr s2 ++ 34 :: rest)).map
                        (fun p => (12 :: p.1, p.2)) := rfl
                  rw [hstep, ih f rest hff]
                  rfl
                · by_cases h32 : c < 32
                  · have hshape : escChar c =
                        [92, 117, 48, 48, hexDigit (c / 16), hexDigit (c % 16)] := by
                      unfold escChar
                      rw [if_neg h34, if_neg h92, if_neg h10, if_neg h13,
                        if_neg h9, if_neg h8, if_neg h12, if_pos h32]
                    rw [hshape]
                    show parseStringBody (f + 1) (92 :: 117 :: 48 :: 48 ::
                      hexDigit (c / 16) :: hexDigit (c % 16) ::
                      (escapeStr s2 ++ 34 :: rest)) = _
                    have hstep : parseStringBody (f + 1) (92 :: 117 :: 48 :: 48 ::
                        hexDigit (c / 16) :: hexDigit (c % 16) ::
                        (escapeStr s2 ++ 34 :: rest)) =
                        (match hexVal 48, hexVal 48, hexVal (hexDigit (c / 16)),
                            hexVal (hexDigit (c % 16)) with
                         | some a, some b, some c3, some d =>
                           (parseStringBody f (escapeStr s2 ++ 34 :: rest)).map
                             (fun p =>
                               ((a * 4096 + b * 256 + c3 * 16 + d) :: p.1, p.2))
                         | _, _, _, _ => none) := rfl
                    rw [hstep, hexVal_hexDigit _ (by omega),
                      hexVal_hexDigit _ (by omega)]
                    have h48 : hexVal 48 = some 0 := rfl
                    rw [h48]
                    dsimp only
                    rw [ih f rest hff]
                    have hval : 0 * 4096 + 0 * 256 + c / 16 * 16 + c % 16 = c := by
                      omega
                    simp
                    omega
                  · have hshape : escChar c = [c] := by
                      unfold escChar
                      rw [if_neg h34, if_neg h92, if_neg h10, if_neg h13,
                        if_neg h9, if_neg h8, if_neg h12, if_neg h32]
                    rw [hshape]
                    show parseStringBody (f + 1) (c :: (escapeStr s2 ++ 34 :: rest)) = _
                    have hstep : parseStringBody (f + 1)
                        (c :: (escapeStr s2 ++ 34 :: rest)) =
                        if c = 34 then some ([], escapeStr s2 ++ 34 :: rest)
                        else if c = 92 then
                          (match escapeStr s2 ++ 34 :: rest with
                           | [] => none
                           | e :: s3 =>
                             if e = 34 then (parseStringBody f s3).map
                               (fun p => (34 :: p.1, p.2))
                             else if e = 92 then (parseStringBody f s3).map
                               (fun p => (92 :: p.1, p.2))
                             else if e = 110 then (parseStringBody f s3).map
                               (fun p => (10 :: p.1, p.2))
                             else if e = 114 then (parseStringBody f s3).map
                               (fun p => (13 :: p.1, p.2))
                             else if e = 116 then (parseStringBody f s3).map
                               (fun p => (9 :: p.1, p.2))
                             else if e = 98 then (parseStringBody f s3).map
                               (fun p => (8 :: p.1, p.2))
                             else if e = 102 then (parseStringBody f s3).map
                               (fun p => (12 :: p.1, p.2))
                             else if e = 117 then
                               (match s3 with
                                | h1 :: h2 :: h3 :: h4 :: s6 =>
                                  (match hexVal h1, hexVal h2, hexVal h3, hexVal h4 with
                                   | some a, some b, some c3, some d =>
                                     (parseStringBody f s6).map
                                       (fun p =>
                                         ((a * 4096 + b * 256 + c3 * 16 + d) :: p.1,
                                          p.2))
                                   | _, _, _, _ => none)
                                | _ => none)
                             else none)
                        else (parseStringBody f (escapeStr s2 ++ 34 :: rest)).map
                          (fun p => (c :: p.1, p.2)) := rfl
                    rw [hstep, if_neg h34, if_neg h92, ih f rest hff]
                    rfl

-- ===================== Whitespace and head lemmas ========================

theorem skipWs_cons_ws {c : Nat} (h : c = 32 ∨ c = 10 ∨ c = 13 ∨ c = 9)
    (s : Str) : skipWs (c :: s) = skipWs s := by
  rw [show skipWs (c :: s) =
    if c = 32 ∨ c = 10 ∨ c = 13 ∨ c = 9 then skipWs s else c :: s from rfl]
  rw [if_pos h]

theorem skipWs_cons_not {c : Nat} (h : ¬(c = 32 ∨ c = 10 ∨ c = 13 ∨ c = 9))
    (s : Str) : skipWs (c :: s) = c :: s := by
  rw [show skipWs (c :: s) =
    if c = 32 ∨ c = 10 ∨ c = 13 ∨ c = 9 then skipWs s else c :: s from rfl]
  rw [if_neg h]

theorem skipWs_replicate (i : Nat) (s : Str) :
    skipWs (List.replicate i 32 ++ s) = skipWs s := by
  induction i with
  | zero => rfl
  | succ i2 ih =>
    rw [List.replicate_succ, List.cons_append, skipWs_cons_ws (by omega), ih]

theorem skipWs_nlIndent (i : Nat) (s : Str) :
    skipWs (nlIndent i ++ s) = skipWs s := by
  unfold nlIndent
  rw [List.cons_append, skipWs_cons_ws (by omega), skipWs_replicate]

theorem parseValue_ws_cons (n : Nat) {c : Nat}
    (h : c = 32 ∨ c = 10 ∨ c = 13 ∨ c = 9) (s : Str) :
    parseValue n (c :: s) = parseValue n s := by
  cases n with
  | zero => rfl
  | succ n2 =>
    rw [parseValue, parseValue, skipWs_cons_ws h]

theorem parseValue_nlIndent (n i : Nat) (s : Str) :
    parseValue n (nlIndent i ++ s) = parseValue n s := by
  cases n with
  | zero => rfl
  | succ n2 =>
    rw [parseValue, parseValue, skipWs_nlIndent]

theorem renderJ_head (ind : Nat) (v : JValue) : ∃ c t, renderJ ind v = c :: t ∧
    (c = 34 ∨ c = 91 ∨ c = 123 ∨ c = 45 ∨ (48 ≤ c ∧ c ≤ 57)) := by
  cases v with
  | jstr s =>
    refine ⟨34, escapeStr s ++ [34], ?_, by omega⟩
    rw [renderJ]
    simp only [List.cons_append]
  | jint n =>
    by_cases hn : n < 0
    · refine ⟨45, natDigits n.natAbs, ?_, by omega⟩
      rw [renderJ, intToStr, if_pos hn]
    · obtain ⟨c0, t0, hct, h1, h2⟩ := natDigits_cons n.natAbs
      refine ⟨c0, t0, ?_, by omega⟩
      rw [renderJ, intToStr, if_neg hn, hct]
  | jdec m k =>
    by_cases hm : m < 0
    · refine ⟨45, natDigits (m.natAbs / 10 ^ k) ++ [46] ++
        padDigits k (m.natAbs % 10 ^ k), ?_, by omega⟩
      rw [renderJ, decToStr, if_pos hm]
      simp
    · obtain ⟨c0, t0, hct, h1, h2⟩ := natDigits_cons (m.natAbs / 10 ^ k)
      refine ⟨c0, t0 ++ [46] ++ padDigits k (m.natAbs % 10 ^ k), ?_, by omega⟩
      rw [renderJ, decToStr, if_neg hm, hct]
      simp
  | jarr xs =>
    cases xs with
    | nil => exact ⟨91, [93], by rw [renderJ], by omega⟩
    | cons x xs2 =>
      refine ⟨91, nlIndent (ind + 2) ++ renderJ (ind + 2) x ++
        renderArrRest (ind + 2) xs2 ++ nlIndent ind ++ [93], ?_, by omega⟩
      rw [renderJ]
      simp only [List.cons_append]
  | jobj fs =>
    cases fs with
    | nil => exact ⟨123, [125], by rw [renderJ], by omega⟩
    | cons f fs2 =>
      refine ⟨123, nlIndent (ind + 2) ++ renderField (ind + 2) f ++
        renderObjRest (ind + 2) fs2 ++ nlIndent ind ++ [125], ?_, by omega⟩
      rw [renderJ]
      simp only [List.cons_append]

theorem sizeJ_pos (v : JValue) : 1 ≤ sizeJ v := by
  cases v <;> simp [sizeJ] <;> omega

theorem sizeL_pos (xs : List JValue) : 1 ≤ sizeL xs := by
  cases xs <;> simp [sizeL] <;> omega

theorem sizeF_pos (fs : List (Str × JValue)) : 1 ≤ sizeF fs := by
  cases fs <;> simp [sizeF] <;> omega

theorem arrRest_stops (ind2 : Nat) (xs : List JValue) (ind : Nat) (rest : Str) :
    stops (renderArrRest ind2 xs ++ (nlIndent ind ++ 93 :: rest)) = true := by
  cases xs with
  | nil => rfl
  | cons x xs2 => rfl

theorem objRest_stops (ind2 : Nat) (fs : List (Str × JValue)) (ind : Nat)
    (rest : Str) :
    stops (renderObjRest ind2 fs ++ (nlIndent ind ++ 125 :: rest)) = true := by
  cases fs with
  | nil => rfl
  | cons f fs2 => rfl

theorem parse_render (n : Nat) :
    (∀ (v : JValue) (ind : Nat) (rest : Str), stops rest = true →
      validJ v = true → sizeJ v ≤ n →
      parseValue n (renderJ ind v ++ rest) = some (v, rest)) ∧
    (∀ (k1 : Str) (v : JValue) (ind : Nat) (rest : Str), stops rest = true →
      validJ v = true → 1 + sizeJ v ≤ n →
      parseField n (renderField ind (k1, v) ++ rest) = some ((k1, v), rest)) ∧
    (∀ (xs : List JValue) (ind2 ind : Nat) (rest : Str), stops rest = true →
      validL xs = true → sizeL xs ≤ n →
      parseArrRest n (renderArrRest ind2 xs ++ (nlIndent ind ++ 93 :: rest)) =
        some (xs, rest)) ∧
    (∀ (fs : List (Str × JValue)) (ind2 ind : Nat) (rest : Str), stops rest = true →
      validF fs = true → sizeF fs ≤ n →
      parseObjRest n (renderObjRest ind2 fs ++ (nlIndent ind ++ 125 :: rest)) =
        some (fs, rest)) := by
  induction n with
  | zero =>
    refine ⟨?_, ?_, ?_, ?_⟩
    · intro v _ _ _ _ hs
      have := sizeJ_pos v
      omega
    · intro _ v _ _ _ _ hs
      have := sizeJ_pos v
      omega
    · intro xs _ _ _ _ _ hs
      have := sizeL_pos xs
      omega
    · intro fs _ _ _ _ _ hs
      have := sizeF_pos fs
      omega
  | succ n ih =>
    obtain ⟨ihV, ihF, ihA, ihO⟩ := ih
    refine ⟨?_, ?_, ?_, ?_⟩
    · intro v ind rest hstop hval hsize
      cases v with
      | jstr s =>
        have hin : renderJ ind (JValue.jstr s) ++ rest =
            34 :: (escapeStr s ++ 34 :: rest) := by
          rw [renderJ]
          simp [List.append_assoc]
        rw [hin, parseValue, skipWs_cons_not (by omega)]
        dsimp only
        rw [if_pos rfl]
        rw [parseStringBody_escape s _ rest (by
          have h1 := escapeStr_length_ge s
          simp only [List.length_append, List.length_cons]
          omega)]
        rfl
      | jint n0 =>
        by_cases hn0 : n0 < 0
        · rw [renderJ, intToStr, if_pos hn0, List.cons_append, parseValue,
            skipWs_cons_not (by omega)]
          dsimp only
          rw [if_neg (by omega), if_neg (by omega), if_neg (by omega)]
          rw [show 45 :: (natDigits n0.natAbs ++ rest) = intToStr n0 ++ rest from by
            rw [intToStr, if_pos hn0, List.cons_append]]
          exact parseNumber_int n0 rest hstop
        · obtain ⟨c0, t0, hct, h1, h2⟩ := natDigits_cons n0.natAbs
          rw [renderJ, intToStr, if_neg hn0, hct, List.cons_append, parseValue,
            skipWs_cons_not (by omega)]
          dsimp only
          rw [if_neg (by omega), if_neg (by omega), if_neg (by omega)]
          rw [show c0 :: (t0 ++ rest) = intToStr n0 ++ rest from by
            rw [intToStr, if_neg hn0, hct, List.cons_append]]
          exact parseNumber_int n0 rest hstop
      | jdec m k =>
        have hk : 1 ≤ k := by
          simp only [validJ, decide_eq_true_eq] at hval
          exact hval
        by_cases hm : m < 0
        · have hin : renderJ ind (JValue.jdec m k) ++ rest =
              45 :: (natDigits (m.natAbs / 10 ^ k) ++
                (46 :: (padDigits k (m.natAbs % 10 ^ k) ++ rest))) := by
            rw [renderJ, decToStr, if_pos hm]
            simp [List.append_assoc]
          rw [hin, parseValue, skipWs_cons_not (by omega)]
          dsimp only
          rw [if_neg (by omega), if_neg (by omega), if_neg (by omega)]
          rw [show 45 :: (natDigits (m.natAbs / 10 ^ k) ++
              (46 :: (padDigits k (m.natAbs % 10 ^ k) ++ rest))) =
              decToStr m k ++ rest from by
            rw [decToStr, if_pos hm]
            simp [List.append_assoc]]
          exact parseNumber_dec m k hk rest hstop
        · obtain ⟨c0, t0, hct, h1, h2⟩ := natDigits_cons (m.natAbs / 10 ^ k)
          have hin : renderJ ind (JValue.jdec m k) ++ rest =
              c0 :: (t0 ++ (46 :: (padDigits k (m.natAbs % 10 ^ k) ++ rest))) := by
            rw [renderJ, decToStr, if_neg hm, hct]
            simp [List.append_assoc]
          rw [hin, parseValue, skipWs_cons_not (by omega)]
          dsimp only
          rw [if_neg (by omega), if_neg (by omega), if_neg (by omega)]
          rw [show c0 :: (t0 ++ (46 :: (padDigits k (m.natAbs % 10 ^ k) ++ rest))) =
              decToStr m k ++ rest from by
            rw [decToStr, if_neg hm, hct]
            simp [List.append_assoc]]
          exact parseNumber_dec m k hk rest hstop
      | jarr xs =>
        cases xs with
        | nil =>
          have hin : renderJ ind (JValue.jarr []) ++ rest = 91 :: 93 :: rest := by
            rw [renderJ]
            simp
          rw [hin, parseValue, skipWs_cons_not (by omega)]
          dsimp only
          rw [if_neg (by omega), if_pos rfl, skipWs_cons_not (by omega)]
          dsimp only
          rw [if_pos rfl]
        | cons x xs2 =>
          have hin : renderJ ind (JValue.jarr (x :: xs2)) ++ rest =
              91 :: (nlIndent (ind + 2) ++ (renderJ (ind + 2) x ++
                (renderArrRest (ind + 2) xs2 ++ (nlIndent ind ++ 93 :: rest)))) := by
            rw [renderJ]
            simp [List.append_assoc]
          simp only [validJ, validL, Bool.and_eq_true] at hval
          have hszx : sizeJ x ≤ n := by
            simp only [sizeJ, sizeL] at hsize
            have := sizeL_pos xs2
            omega
          have hszxs : sizeL xs2 ≤ n := by
            simp only [sizeJ, sizeL] at hsize
            have := sizeJ_pos x
            omega
          rw [hin, parseValue, skipWs_cons_not (by omega)]
          dsimp only
          rw [if_neg (by omega), if_pos rfl, skipWs_nlIndent]
          obtain ⟨c0, t0, hct, hgood⟩ := renderJ_head (ind + 2) x
          rw [hct, List.cons_append, skipWs_cons_not (by omega)]
          dsimp only
          rw [if_neg (by omega), ← List.cons_append, ← hct,
            ihV x (ind + 2) _ (arrRest_stops (ind + 2) xs2 ind rest) hval.1 hszx]
          dsimp only
          rw [ihA xs2 (ind + 2) ind rest hstop hval.2 hszxs]
      | jobj fs =>
        cases fs with
        | nil =>
          have hin : renderJ ind (JValue.jobj []) ++ rest = 123 :: 125 :: rest := by
            rw [renderJ]
            simp
          rw [hin, parseValue, skipWs_cons_not (by omega)]
          dsimp only
          rw [if_neg (by omega), if_neg (by omega), if_pos rfl,
            skipWs_cons_not (by omega)]
          dsimp only
          rw [if_pos rfl]
        | cons f fs2 =>
          obtain ⟨k1, v1⟩ := f
          have hin : renderJ ind (JValue.jobj ((k1, v1) :: fs2)) ++ rest =
              123 :: (nlIndent (ind + 2) ++ (renderField (ind + 2) (k1, v1) ++
                (renderObjRest (ind + 2) fs2 ++ (nlIndent ind ++ 125 :: rest)))) := by
            rw [renderJ]
            simp [List.append_assoc]
          simp only [validJ, validF, Bool.and_eq_true] at hval
          have hszv : 1 + sizeJ v1 ≤ n := by
            simp only [sizeJ, sizeF] at hsize
            have := sizeF_pos fs2
            omega
          have hszfs : sizeF fs2 ≤ n := by
            simp only [sizeJ, sizeF] at hsize
            have := sizeJ_pos v1
            omega
          rw [hin, parseValue, skipWs_cons_not (by omega)]
          dsimp only
          rw [if_neg (by omega), if_neg (by omega), if_pos rfl, skipWs_nlIndent]
          have hfh : renderField (ind + 2) (k1, v1) = 34 ::
              (escapeStr k1 ++ (34 :: 58 :: 32 :: renderJ (ind + 2) v1)) := by
            rw [renderField]
            simp [List.append_assoc]
          rw [hfh, List.cons_append, skipWs_cons_not (by omega)]
          dsimp only
          rw [if_neg (by omega), ← List.cons_append, ← hfh,
            ihF k1 v1 (ind + 2) _ (objRest_stops (ind + 2) fs2 ind rest)
              hval.1.2 hszv]
          dsimp only
          rw [ihO fs2 (ind + 2) ind rest hstop hval.2 hszfs]
    · intro k1 v ind rest hstop hval hsize
      have hin : renderField ind (k1, v) ++ rest =
          34 :: (escapeStr k1 ++ 34 :: (58 :: 32 :: (renderJ ind v ++ rest))) := by
        rw [renderField]
        simp [List.append_assoc]
      rw [hin, parseField, skipWs_cons_not (by omega)]
      dsimp only
      rw [parseStringBody_escape k1 _ _ (by
        have h1 := escapeStr_length_ge k1
        simp only [List.length_append, List.length_cons]
        omega)]
      dsimp only
      rw [skipWs_cons_not (by omega)]
      dsimp only
      rw [parseValue_ws_cons n (by omega),
        ihV v ind rest hstop hval (by omega)]
    · intro xs ind2 ind rest hstop hval hsize
      cases xs with
      | nil =>
        have hin : renderArrRest ind2 [] ++ (nlIndent ind ++ 93 :: rest) =
            nlIndent ind ++ 93 :: rest := by
          rw [renderArrRest]
          simp
        rw [hin, parseArrRest, skipWs_nlIndent, skipWs_cons_not (by omega)]
      | cons x xs2 =>
        have hin : renderArrRest ind2 (x :: xs2) ++ (nlIndent ind ++ 93 :: rest) =
            44 :: (nlIndent ind2 ++ (renderJ ind2 x ++
              (renderArrRest ind2 xs2 ++ (nlIndent ind ++ 93 :: rest)))) := by
          rw [renderArrRest]
          simp [List.append_assoc]
        simp only [validL, Bool.and_eq_true] at hval
        have hszx : sizeJ x ≤ n := by
          simp only [sizeL] at hsize
          have := sizeL_pos xs2
          omega
        have hszxs : sizeL xs2 ≤ n := by
          simp only [sizeL] at hsize
          have := sizeJ_pos x
          omega
        rw [hin, parseArrRest, skipWs_cons_not (by omega)]
        dsimp only
        rw [parseValue_nlIndent,
          ihV x ind2 _ (arrRest_stops ind2 xs2 ind rest) hval.1 hszx]
        dsimp only
        rw [ihA xs2 ind2 ind rest hstop hval.2 hszxs]
    · intro fs ind2 ind rest hstop hval hsize
      cases fs with
      | nil =>
        have hin : renderObjRest ind2 [] ++ (nlIndent ind ++ 125 :: rest) =
            nlIndent ind ++ 125 :: rest := by
          rw [renderObjRest]
          simp
        rw [hin, parseObjRest, skipWs_nlIndent, skipWs_cons_not (by omega)]
      | cons f fs2 =>
        obtain ⟨k1, v1⟩ := f
        have hin : renderObjRest ind2 ((k1, v1) :: fs2) ++
            (nlIndent ind ++ 125 :: rest) =
            44 :: (nlIndent ind2 ++ (renderField ind2 (k1, v1) ++
              (renderObjRest ind2 fs2 ++ (nlIndent ind ++ 125 :: rest)))) := by
          rw [renderObjRest]
          simp [List.append_assoc]
        simp only [validF, Bool.and_eq_true] at hval
        have hszv : 1 + sizeJ v1 ≤ n := by
          simp only [sizeF] at hsize
          have := sizeF_pos fs2
          omega
        have hszfs : sizeF fs2 ≤ n := by
          simp only [sizeF] at hsize
          have := sizeJ_pos v1
          omega
        rw [hin, parseObjRest, skipWs_cons_not (by omega)]
        dsimp only
        have hff : parseField n (nlIndent ind2 ++ (renderField ind2 (k1, v1) ++
            (renderObjRest ind2 fs2 ++ (nlIndent ind ++ 125 :: rest)))) =
            parseField n (renderField ind2 (k1, v1) ++
              (renderObjRest ind2 fs2 ++ (nlIndent ind ++ 125 :: rest))) := by
          cases n with
          | zero => rfl
          | succ n3 => rw [parseField, parseField, skipWs_nlIndent]
        rw [hff, ihF k1 v1 ind2 _ (objRest_stops ind2 fs2 ind rest)
          hval.1.2 hszv]
        dsimp only
        rw [ihO fs2 ind2 ind rest hstop hval.2 hszfs]

theorem nlIndent_length (i : Nat) : (nlIndent i).length = i + 1 := by
  unfold nlIndent
  simp

mutual

theorem renderJ_length (ind : Nat) (v : JValue) :
    sizeJ v ≤ (renderJ ind v).length + 1 := by
  cases v with
  | jstr s =>
    rw [renderJ, sizeJ]
    simp
  | jint n =>
    rw [renderJ, sizeJ]
    omega
  | jdec m k =>
    rw [renderJ, sizeJ]
    omega
  | jarr xs =>
    cases xs with
    | nil =>
      rw [renderJ, sizeJ, sizeL]
      simp
    | cons x xs2 =>
      have h1 := renderJ_length (ind + 2) x
      have h2 := renderArrRest_length (ind + 2) xs2
      rw [renderJ, sizeJ, sizeL]
      simp only [List.length_cons, List.length_append, List.length_nil,
        nlIndent_length]
      omega
  | jobj fs =>
    cases fs with
    | nil =>
      rw [renderJ, sizeJ, sizeF]
      simp
    | cons f fs2 =>
      obtain ⟨k1, v1⟩ := f
      have h1 := renderJ_length (ind + 2) v1
      have h2 := renderObjRest_length (ind + 2) fs2
      rw [renderJ, sizeJ, sizeF, renderField]
      simp only [List.length_cons, List.length_append, List.length_nil,
        nlIndent_length]
      omega

theorem renderArrRest_length (ind : Nat) (xs : List JValue) :
    sizeL xs ≤ (renderArrRest ind xs).length + 1 := by
  cases xs with
  | nil =>
    rw [renderArrRest, sizeL]
    simp
  | cons x xs2 =>
    have h1 := renderJ_length ind x
    have h2 := renderArrRest_length ind xs2
    rw [renderArrRest, sizeL]
    simp only [List.length_cons, List.length_append, List.length_nil,
      nlIndent_length]
    omega

theorem renderObjRest_length (ind : Nat) (fs : List (Str × JValue)) :
    sizeF fs ≤ (renderObjRest ind fs).length + 1 := by
  cases fs with
  | nil =>
    rw [renderObjRest, sizeF]
    simp
  | cons f fs2 =>
    obtain ⟨k1, v1⟩ := f
    have h1 := renderJ_length ind v1
    have h2 := renderObjRest_length ind fs2
    rw [renderObjRest, sizeF, renderField]
    simp only [List.length_cons, List.length_append, List.length_nil,
      nlIndent_length]
    omega

end

theorem json_loads_chars_render (v : JValue) (hv : validJ v = true) :
    json_loads_chars (renderJ 0 v) = some v := by
  unfold json_loads_chars
  have h := (parse_render ((renderJ 0 v).length + 1)).1 v 0 [] rfl hv
    (renderJ_length 0 v)
  rw [List.append_nil] at h
  rw [h]
  rfl

theorem utf8Encode_cons (c : Nat) (s : Str) :
    utf8Encode (c :: s) = utf8Char c ++ utf8Encode s := rfl

theorem utf8Char_length_pos (c : Nat) : 1 ≤ (utf8Char c).length := by
  unfold utf8Char
  split_ifs <;> simp

theorem utf8Encode_length_ge (s : Str) : s.length ≤ (utf8Encode s).length := by
  induction s with
  | nil => simp [utf8Encode]
  | cons c s2 ih =>
    rw [utf8Encode_cons, List.length_append, List.length_cons]
    have := utf8Char_length_pos c
    omega

theorem utf8DecodeAux_char (c : Nat) (hc : validCp c = true) (fuel : Nat)
    (r : List Nat) :
    utf8DecodeAux (fuel + 1) (utf8Char c ++ r) =
      (utf8DecodeAux fuel r).map (fun s => c :: s) := by
  simp only [validCp, Bool.and_eq_true, Bool.not_eq_true', Bool.and_eq_false_iff,
    decide_eq_true_eq, decide_eq_false_iff_not, not_lt, not_le] at hc
  have hc1 : c < 1114112 := hc.1
  unfold utf8Char
  by_cases h1 : c < 128
  · rw [if_pos h1]
    simp only [List.singleton_append]
    rw [utf8DecodeAux.eq_def]
    dsimp only
    rw [if_pos h1]
  · rw [if_neg h1]
    by_cases h2 : c < 2048
    · rw [if_pos h2]
      simp only [List.cons_append, List.nil_append]
      rw [utf8DecodeAux.eq_def]
      dsimp only
      rw [if_neg (by omega), if_neg (by omega), if_pos (by omega)]
      rw [if_pos (by omega)]
      have hv : (192 + c / 64 - 192) * 64 + (128 + c % 64 - 128) = c := by omega
      rw [hv]
    · rw [if_neg h2]
      by_cases h3 : c < 65536
      · rw [if_pos h3]
        simp only [List.cons_append, List.nil_append]
        rw [utf8DecodeAux.eq_def]
        dsimp only
        rw [if_neg (by omega), if_neg (by omega),
          if_neg (by omega), if_pos (by omega)]
        rw [if_pos (by constructor <;> omega)]
        have hv : (224 + c / 4096 - 224) * 4096 + (128 + c / 64 % 64 - 128) * 64 +
            (128 + c % 64 - 128) = c := by omega
        rw [hv]
      · rw [if_neg h3]
        simp only [List.cons_append, List.nil_append]
        rw [utf8DecodeAux.eq_def]
        dsimp only
        rw [if_neg (by omega), if_neg (by omega),
          if_neg (by omega), if_neg (by omega), if_pos (by omega)]
        rw [if_pos (by refine ⟨⟨?_, ?_⟩, ⟨?_, ?_⟩, ?_, ?_⟩ <;> omega)]
        have hv : (240 + c / 262144 - 240) * 262144 +
            (128 + c / 4096 % 64 - 128) * 4096 +
            (128 + c / 64 % 64 - 128) * 64 + (128 + c % 64 - 128) = c := by omega
        rw [hv]

theorem utf8DecodeAux_encode : ∀ (s : Str) (fuel : Nat),
    (∀ c ∈ s, validCp c = true) → s.length ≤ fuel →
    utf8DecodeAux fuel (utf8Encode s) = some s := by
  intro s
  induction s with
  | nil =>
    intro fuel _ _
    cases fuel <;> rfl
  | cons c s2 ih =>
    intro fuel hval hlen
    obtain ⟨f, rfl⟩ : ∃ f, fuel = f + 1 := ⟨fuel - 1, by
      simp only [List.length_cons] at hlen
      omega⟩
    rw [utf8Encode_cons, utf8DecodeAux_char c (hval c (List.mem_cons_self _ _)) f,
      ih f (fun c2 h2 => hval c2 (List.mem_cons_of_mem _ h2)) (by
        simp only [List.length_cons] at hlen
        omega)]
    rfl

theorem utf8Decode_encode (s : Str) (h : ∀ c ∈ s, validCp c = true) :
    utf8Decode (utf8Encode s) = some s := by
  unfold utf8Decode
  exact utf8DecodeAux_encode s _ h (by
    have := utf8Encode_length_ge s
    omega)

theorem validCp_of_lt {c : Nat} (h : c < 55296) : validCp c = true := by
  unfold validCp
  simp only [Bool.and_eq_true, Bool.not_eq_true', Bool.and_eq_false_iff,
    decide_eq_true_eq, decide_eq_false_iff_not, not_le, not_lt]
  omega

theorem hexDigit_lt (d : Nat) (hd : d < 16) : hexDigit d < 128 := by
  unfold hexDigit
  split <;> omega

theorem escChar_valid {c : Nat} (hc : validCp c = true) :
    ∀ d ∈ escChar c, validCp d = true := by
  intro d hd
  unfold escChar at hd
  split_ifs at hd with h1 h2 h3 h4 h5 h6 h7 h8
  · simp only [List.mem_cons, List.not_mem_nil, or_false] at hd
    exact validCp_of_lt (by omega)
  · simp only [List.mem_cons, List.not_mem_nil, or_false] at hd
    exact validCp_of_lt (by omega)
  · simp only [List.mem_cons, List.not_mem_nil, or_false] at hd
    exact validCp_of_lt (by omega)
  · simp only [List.mem_cons, List.not_mem_nil, or_false] at hd
    exact validCp_of_lt (by omega)
  · simp only [List.mem_cons, List.not_mem_nil, or_false] at hd
    exact validCp_of_lt (by omega)
  · simp only [List.mem_cons, List.not_mem_nil, or_false] at hd
    exact validCp_of_lt (by omega)
  · simp only [List.mem_cons, List.not_mem_nil, or_false] at hd
    exact validCp_of_lt (by omega)
  · simp only [List.mem_cons, List.not_mem_nil, or_false] at hd
    have e1 := hexDigit_lt (c / 16) (by omega)
    have e2 := hexDigit_lt (c % 16) (by omega)
    exact validCp_of_lt (by omega)
  · simp only [List.mem_cons, List.not_mem_nil, or_false] at hd
    subst hd
    exact hc

theorem escapeStr_valid {s : Str} (hs : validStr s = true) :
    ∀ d ∈ escapeStr s, validCp d = true := by
  induction s with
  | nil =>
    intro d hd
    cases hd
  | cons c t ih =>
    unfold validStr at hs
    rw [List.all_cons, Bool.and_eq_true] at hs
    intro d hd
    rw [show escapeStr (c :: t) = escChar c ++ escapeStr t from rfl] at hd
    rcases List.mem_append.mp hd with h | h
    · exact escChar_valid hs.1 d h
    · exact ih hs.2 d h

theorem intToStr_valid (n : Int) : ∀ d ∈ intToStr n, validCp d = true := by
  intro d hd
  unfold intToStr at hd
  split_ifs at hd
  · rcases List.mem_cons.mp hd with h | h
    · subst h
      exact validCp_of_lt (by omega)
    · have := natDigits_all_digits _ d h
      exact validCp_of_lt (by omega)
  · have := natDigits_all_digits _ d hd
    exact validCp_of_lt (by omega)

theorem decToStr_valid (m : Int) (k : Nat) : ∀ d ∈ decToStr m k, validCp d = true := by
  intro d hd
  unfold decToStr at hd
  rcases List.mem_append.mp hd with h | h
  · rcases List.mem_append.mp h with h2 | h2
    · rcases List.mem_append.mp h2 with h3 | h3
      · split_ifs at h3
        · simp only [List.mem_cons, List.not_mem_nil, or_false] at h3
          exact validCp_of_lt (by omega)
        · cases h3
      · have := natDigits_all_digits _ d h3
        exact validCp_of_lt (by omega)
    · simp only [List.mem_cons, List.not_mem_nil, or_false] at h2
      exact validCp_of_lt (by omega)
  · have := padDigits_all_digits _ _ d h
    exact validCp_of_lt (by omega)

theorem nlIndent_valid (i : Nat) : ∀ d ∈ nlIndent i, validCp d = true := by
  intro d hd
  unfold nlIndent at hd
  rcases List.mem_cons.mp hd with h | h
  · subst h
    exact validCp_of_lt (by omega)
  · have := List.eq_of_mem_replicate h
    subst this
    exact validCp_of_lt (by omega)

mutual

theorem renderJ_valid (ind : Nat) (v : JValue) (hv : validJ v = true) :
    ∀ d ∈ renderJ ind v, validCp d = true := by
  cases v with
  | jstr s =>
    rw [validJ] at hv
    intro d hd
    rw [renderJ] at hd
    rcases List.mem_cons.mp hd with h | h
    · subst h
      exact validCp_of_lt (by omega)
    · rcases List.mem_append.mp h with h2 | h2
      · exact escapeStr_valid hv d h2
      · simp only [List.mem_cons, List.not_mem_nil, or_false] at h2
        subst h2
        exact validCp_of_lt (by omega)
  | jint n =>
    intro d hd
    rw [renderJ] at hd
    exact intToStr_valid n d hd
  | jdec m k =>
    intro d hd
    rw [renderJ] at hd
    exact decToStr_valid m k d hd
  | jarr xs =>
    rw [validJ] at hv
    cases xs with
    | nil =>
      intro d hd
      rw [renderJ] at hd
      simp only [List.mem_cons, List.not_mem_nil, or_false] at hd
      rcases hd with h | h <;> (subst h; exact validCp_of_lt (by omega))
    | cons x xs2 =>
      rw [validL, Bool.and_eq_true] at hv
      intro d hd
      rw [renderJ] at hd
      rcases List.mem_cons.mp hd with h | h
      · subst h
        exact validCp_of_lt (by omega)
      · rcases List.mem_append.mp h with h1 | h1
        · rcases List.mem_append.mp h1 with h2 | h2
          · rcases List.mem_append.mp h2 with h3 | h3
            · rcases List.mem_append.mp h3 with h4 | h4
              · exact nlIndent_valid _ d h4
              · exact renderJ_valid (ind + 2) x hv.1 d h4
            · exact renderArrRest_valid (ind + 2) xs2 hv.2 d h3
          · exact nlIndent_valid _ d h2
        · simp only [List.mem_cons, List.not_mem_nil, or_false] at h1
          subst h1
          exact validCp_of_lt (by omega)
  | jobj fs =>
    rw [validJ] at hv
    cases fs with
    | nil =>
      intro d hd
      rw [renderJ] at hd
      simp only [List.mem_cons, List.not_mem_nil, or_false] at hd
      rcases hd with h | h <;> (subst h; exact validCp_of_lt (by omega))
    | cons f fs2 =>
      rw [validF, Bool.and_eq_true, Bool.and_eq_true] at hv
      intro d hd
      rw [renderJ] at hd
      rcases List.mem_cons.mp hd with h | h
      · subst h
        exact validCp_of_lt (by omega)
      · rcases List.mem_append.mp h with h1 | h1
        · rcases List.mem_append.mp h1 with h2 | h2
          · rcases List.mem_append.mp h2 with h3 | h3
            · rcases List.mem_append.mp h3 with h4 | h4
              · exact nlIndent_valid _ d h4
              · exact renderField_valid (ind + 2) f hv.1.1 hv.1.2 d h4
            · exact renderObjRest_valid (ind + 2) fs2 hv.2 d h3
          · exact nlIndent_valid _ d h2
        · simp only [List.mem_cons, List.not_mem_nil, or_false] at h1
          subst h1
          exact validCp_of_lt (by omega)

theorem renderField_valid (ind : Nat) (f : Str × JValue)
    (hk : validStr f.1 = true) (hv : validJ f.2 = true) :
    ∀ d ∈ renderField ind f, validCp d = true := by
  obtain ⟨k, v⟩ := f
  intro d hd
  rw [renderField] at hd
  rcases List.mem_cons.mp hd with h | h
  · subst h
    exact validCp_of_lt (by omega)
  · rcases List.mem_append.mp h with h1 | h1
    · rcases List.mem_append.mp h1 with h2 | h2
      · exact escapeStr_valid hk d h2
      · simp only [List.mem_cons, List.not_mem_nil, or_false] at h2
        rcases h2 with h3 | h3 | h3 <;> (subst h3; exact validCp_of_lt (by omega))
    · exact renderJ_valid ind v hv d h1

theorem renderArrRest_valid (ind : Nat) (xs : List JValue)
    (hv : validL xs = true) : ∀ d ∈ renderArrRest ind xs, validCp d = true := by
  cases xs with
  | nil =>
    intro d hd
    rw [renderArrRest] at hd
    cases hd
  | cons x xs2 =>
    rw [validL, Bool.and_eq_true] at hv
    intro d hd
    rw [renderArrRest] at hd
    rcases List.mem_cons.mp hd with h | h
    · subst h
      exact validCp_of_lt (by omega)
    · rcases List.mem_append.mp h with h1 | h1
      · rcases List.mem_append.mp h1 with h2 | h2
        · exact nlIndent_valid _ d h2
        · exact renderJ_valid ind x hv.1 d h2
      · exact renderArrRest_valid ind xs2 hv.2 d h1

theorem renderObjRest_valid (ind : Nat) (fs : List (Str × JValue))
    (hv : validF fs = true) : ∀ d ∈ renderObjRest ind fs, validCp d = true := by
  cases fs with
  | nil =>
    intro d hd
    rw [renderObjRest] at hd
    cases hd
  | cons f fs2 =>
    rw [validF, Bool.and_eq_true, Bool.and_eq_true] at hv
    intro d hd
    rw [renderObjRest] at hd
    rcases List.mem_cons.mp hd with h | h
    · subst h
      exact validCp_of_lt (by omega)
    · rcases List.mem_append.mp h with h1 | h1
      · rcases List.mem_append.mp h1 with h2 | h2
        · exact nlIndent_valid _ d h2
        · exact renderField_valid ind f hv.1.1 hv.1.2 d h2
      · exact renderObjRest_valid ind fs2 hv.2 d h1

end

theorem json_loads_dumps (v : JValue) (hv : validJ v = true) :
    json_loads (json_dumps v) = some v := by
  unfold json_loads json_dumps
  rw [utf8Decode_encode _ (renderJ_valid 0 v hv)]
  exact json_loads_chars_render v hv

theorem exMapM_ok_forall2 {ε α β : Type} {f : α → Except ε β} :
    ∀ {l : List α} {bs : List β}, exMapM f l = .ok bs →
    List.Forall₂ (fun a b => f a = .ok b) l bs := by
  intro l
  induction l with
  | nil =>
    intro bs h
    rw [exMapM] at h
    injection h with h2
    subst h2
    exact List.Forall₂.nil
  | cons a t ih =>
    intro bs h
    rw [exMapM] at h
    split at h
    · exact Except.noConfusion h
    · rename_i b hfa
      split at h
      · exact Except.noConfusion h
      · rename_i bs2 htl
        injection h with h2
        subst h2
        exact List.Forall₂.cons hfa (ih htl)

theorem jCriterionOf_criterionJson {cm : CatModule} {c : Str × CriterionResult}
    {cj : Str × JValue} (h : criterionJson cm c = .ok cj) :
    cj.1 = c.1 ∧ jCriterionOf cj.2 = some c.2 := by
  obtain ⟨text, htext, rfl⟩ := criterionJson_ok_inv h
  refine ⟨rfl, ?_⟩
  rw [jCriterionOf.eq_def]
  dsimp only
  rw [if_pos ⟨rfl, rfl, rfl⟩]

theorem optMapM_crits {cm : CatModule} :
    ∀ {cs : List (Str × CriterionResult)} {crits : List (Str × JValue)},
    List.Forall₂ (fun c cj => criterionJson cm c = .ok cj) cs crits →
    optMapM (fun (q : Str × JValue) =>
      (jCriterionOf q.2).map (fun c => (q.1, c))) crits = some cs := by
  intro cs crits h
  induction h with
  | nil => rfl
  | cons h1 h2 ih =>
    rename_i c cj cs2 crits2
    obtain ⟨hk, hv⟩ := jCriterionOf_criterionJson h1
    rw [optMapM, hv, ih, hk]
    rfl

theorem jModuleOf_moduleJson {mk : Str} {mod : ModuleResult}
    {mj : Str × JValue} (hkey : mod.module_key = mk)
    (h : moduleJson (mk, mod) = .ok mj) :
    mj.1 = mk ∧ jModuleOf mk mj.2 = some mod := by
  obtain ⟨cm, crits, hcm, hcrits, rfl⟩ := moduleJson_ok_inv h
  refine ⟨rfl, ?_⟩
  rw [jModuleOf.eq_def]
  dsimp only
  rw [if_pos ⟨rfl, rfl⟩]
  rw [optMapM_crits (exMapM_ok_forall2 hcrits)]
  rw [← hkey]
  rfl

theorem optMapM_jstr : ∀ l : List Str,
    optMapM jStrOf (l.map JValue.jstr) = some l := by
  intro l
  induction l with
  | nil => rfl
  | cons s t ih =>
    rw [List.map_cons, optMapM, show jStrOf (JValue.jstr s) = some s from rfl, ih]
    rfl

theorem optMapM_weights : ∀ ws : List (Str × PyFloat),
    optMapM (fun (p : Str × JValue) => (jFloatOf p.2).map (fun w => (p.1, w)))
      (ws.map (fun p => (p.1, JValue.jdec p.2.m p.2.k))) = some ws := by
  intro ws
  induction ws with
  | nil => rfl
  | cons p t ih =>
    rw [List.map_cons, optMapM, ih]
    rfl

theorem optMapM_mods :
    ∀ {ms : List (Str × ModuleResult)} {mods : List (Str × JValue)},
    (∀ p ∈ ms, p.2.module_key = p.1) →
    List.Forall₂ (fun p mj => moduleJson p = .ok mj) ms mods →
    optMapM (fun (q : Str × JValue) =>
      (jModuleOf q.1 q.2).map (fun m => (q.1, m))) mods = some ms := by
  intro ms mods hkeys h
  revert hkeys
  induction h with
  | nil =>
    intro _
    rfl
  | cons h1 h2 ih =>
    intro hkeys
    rename_i p mj ms2 mods2
    obtain ⟨mk, mod⟩ := p
    have hkey : mod.module_key = mk := hkeys (mk, mod) (List.mem_cons_self _ _)
    obtain ⟨hk, hv⟩ := jModuleOf_moduleJson hkey h1
    rw [optMapM, hk, hv, ih (fun q hq => hkeys q (List.mem_cons_of_mem _ hq))]
    rfl

theorem formOfJson_build (date colleague subject grade topic observer school
    strengths nexts : Str) (pf : List JValue) (ws mods : List (Str × JValue))
    (pf2 : List Str) (ws2 : List (Str × PyFloat))
    (mods2 : List (Str × ModuleResult))
    (h1 : optMapM jStrOf pf = some pf2)
    (h2 : optMapM (fun (p : Str × JValue) =>
      (jFloatOf p.2).map (fun w => (p.1, w))) ws = some ws2)
    (h3 : optMapM (fun (p : Str × JValue) =>
      (jModuleOf p.1 p.2).map (fun m => (p.1, m))) mods = some mods2) :
    formOfJson (JValue.jobj
      [ (strLit "date", JValue.jstr date),
        (strLit "colleague", JValue.jstr colleague),
        (strLit "subject", JValue.jstr subject),
        (strLit "grade", JValue.jstr grade),
        (strLit "topic", JValue.jstr topic),
        (strLit "observer", JValue.jstr observer),
        (strLit "school", JValue.jstr school),
        (strLit "profile_focus", JValue.jarr pf),
        (strLit "weights", JValue.jobj ws),
        (strLit "modules", JValue.jobj mods),
        (strLit "strengths", JValue.jstr strengths),
        (strLit "next_steps", JValue.jstr nexts) ]) =
      some { date := date, colleague := colleague, subject := subject,
             grade := grade, topic := topic, observer := observer,
             school := school, modules := mods2, strengths := strengths,
             next_steps := nexts, profile_focus := pf2, weights := ws2 } := by
  rw [formOfJson.eq_def]
  dsimp only
  rw [if_pos ⟨rfl, rfl, rfl, rfl, rfl, rfl, rfl, rfl, rfl, rfl, rfl, rfl⟩]
  rw [h1, h2, h3]
  rfl

theorem formOfJson_exportData {form : ObservationForm} {v : JValue}
    (hf : FormValid form = true) (h : exportData form = .ok v) :
    formOfJson v = some form := by
  obtain ⟨mods, hmods, rfl⟩ := exportData_ok_inv h
  have hkeys : ∀ p ∈ form.modules, p.2.module_key = p.1 := by
    unfold FormValid at hf
    simp only [Bool.and_eq_true, List.all_eq_true, decide_eq_true_eq] at hf
    intro p hp
    exact (hf.2 p hp).1.2
  rw [formOfJson_build form.date form.colleague form.subject form.grade
    form.topic form.observer form.school form.strengths form.next_steps
    (form.profile_focus.map JValue.jstr)
    (form.weights.map (fun p => (p.1, JValue.jdec p.2.m p.2.k))) mods
    form.profile_focus form.weights form.modules
    (optMapM_jstr form.profile_focus) (optMapM_weights form.weights)
    (optMapM_mods hkeys (exMapM_ok_forall2 hmods))]

theorem catalog_valid : BLI_DATA.all (fun p => validStr p.1 &&
    validStr p.2.title &&
    p.2.criteria.all (fun c => validStr c.1 && validStr c.2)) = true := by
  decide

theorem validL_map_jstr {l : List Str} (h : l.all validStr = true) :
    validL (l.map JValue.jstr) = true := by
  induction l with
  | nil => rfl
  | cons s t ih =>
    rw [List.all_cons, Bool.and_eq_true] at h
    rw [List.map_cons, validL, validJ, h.1, ih h.2]
    rfl

theorem validF_weights {ws : List (Str × PyFloat)}
    (h : ws.all (fun p => validStr p.1 && decide (1 ≤ p.2.k)) = true) :
    validF (ws.map (fun p => (p.1, JValue.jdec p.2.m p.2.k))) = true := by
  induction ws with
  | nil => rfl
  | cons p t ih =>
    rw [List.all_cons, Bool.and_eq_true, Bool.and_eq_true] at h
    rw [List.map_cons, validF]
    rw [show ((p.1, JValue.jdec p.2.m p.2.k) : Str × JValue).1 = p.1 from rfl,
      show ((p.1, JValue.jdec p.2.m p.2.k) : Str × JValue).2 =
        JValue.jdec p.2.m p.2.k from rfl, validJ, h.1.1, h.1.2, ih h.2]
    rfl

theorem validF_crits {cm : CatModule}
    (hcm : cm.criteria.all (fun c => validStr c.1 && validStr c.2) = true) :
    ∀ {cs : List (Str × CriterionResult)} {crits : List (Str × JValue)},
    cs.all (fun c => validStr c.1 && validStr c.2.comment) = true →
    List.Forall₂ (fun c cj => criterionJson cm c = .ok cj) cs crits →
    validF crits = true := by
  intro cs crits hall h
  revert hall
  induction h with
  | nil =>
    intro _
    rfl
  | cons h1 h2 ih =>
    intro hall
    rename_i c cj cs2 crits2
    rw [List.all_cons, Bool.and_eq_true, Bool.and_eq_true] at hall
    obtain ⟨text, htext, rfl⟩ := criterionJson_ok_inv h1
    have hmem := alookup_mem htext
    have htextv := List.all_eq_true.mp hcm _ hmem
    rw [Bool.and_eq_true] at htextv
    rw [validF]
    dsimp only
    rw [validJ, validF, validF, validF, validJ, validJ, validJ]
    rw [hall.1.1, hall.1.2, htextv.2, ih hall.2]
    rfl

theorem validF_mods :
    ∀ {ms : List (Str × ModuleResult)} {mods : List (Str × JValue)},
    ms.all (fun p => validStr p.1 && decide (p.2.module_key = p.1) &&
      p.2.criteria.all (fun c => validStr c.1 && validStr c.2.comment)) = true →
    List.Forall₂ (fun p mj => moduleJson p = .ok mj) ms mods →
    validF mods = true := by
  intro ms mods hall h
  revert hall
  induction h with
  | nil =>
    intro _
    rfl
  | cons h1 h2 ih =>
    intro hall
    rename_i p mj ms2 mods2
    rw [List.all_cons, Bool.and_eq_true, Bool.and_eq_true, Bool.and_eq_true] at hall
    obtain ⟨cm, crits, hcm, hcrits, rfl⟩ := moduleJson_ok_inv h1
    have hmem := alookup_mem hcm
    have hcatv := List.all_eq_true.mp catalog_valid _ hmem
    rw [Bool.and_eq_true, Bool.and_eq_true] at hcatv
    rw [validF]
    dsimp only
    rw [validJ, validF, validF, validJ, validJ]
    rw [hall.1.1.1, hcatv.1.2,
      validF_crits hcatv.2 hall.1.2 (exMapM_ok_forall2 hcrits),
      ih hall.2]
    rfl

theorem validJ_exportData {form : ObservationForm} {v : JValue}
    (hf : FormValid form = true) (h : exportData form = .ok v) :
    validJ v = true := by
  obtain ⟨mods, hmods, rfl⟩ := exportData_ok_inv h
  unfold FormValid at hf
  simp only [Bool.and_eq_true] at hf
  obtain ⟨⟨⟨⟨⟨⟨⟨⟨⟨⟨⟨hdate, hcol⟩, hsub⟩, hgrd⟩, htop⟩, hobs⟩, hsch⟩, hstr⟩,
    hnxt⟩, hpf⟩, hws⟩, hmod⟩ := hf
  rw [validJ]
  rw [validF, validF, validF, validF, validF, validF, validF, validF, validF,
    validF, validF, validF, validF]
  dsimp only
  rw [validJ, validJ, validJ, validJ, validJ, validJ, validJ, validJ, validJ,
    validJ, validJ, validJ]
  rw [hdate, hcol, hsub, hgrd, htop, hobs, hsch, hstr, hnxt]
  rw [validL_map_jstr hpf, validF_weights hws,
    validF_mods hmod (exMapM_ok_forall2 hmods)]
  rfl

/-- C5: for every valid record, the byte payload of export_json round-trips
losslessly: UTF-8 decoding and JSON parsing the bytes recovers exactly the
serialized data value, reading that value back yields the full record
(minus the derived scores, which are not serialized), and re-encoding the
decoded value reproduces the byte payload exactly. -/
theorem C5_json_roundtrip (form : ObservationForm) (hv : FormValid form = true)
    (bs : List Nat) (h : export_json form = .ok bs) :
    ∃ v, exportData form = .ok v ∧ json_loads bs = some v ∧
      formOfJson v = some form ∧ json_dumps v = bs := by
  unfold export_json at h
  cases hd : exportData form with
  | error e =>
    rw [hd] at h
    exact Except.noConfusion h
  | ok v =>
    rw [hd] at h
    have h2 : (Except.ok (json_dumps v) : Except ExportError (List Nat)) =
        Except.ok bs := h
    injection h2 with h3
    refine ⟨v, rfl, ?_, formOfJson_exportData hv hd, h3⟩
    rw [← h3]
    exact json_loads_dumps v (validJ_exportData hv hd)

/-- C5 witness: the populated small record is valid, export_json succeeds on
it, and its payload round-trips. -/
theorem C5_witness : FormValid c6form = true ∧
    (∃ v, exportData c6form = .ok v ∧ json_loads c5bytes = some v ∧
      formOfJson v = some c6form ∧ json_dumps v = c5bytes) :=
  ⟨by decide, C5_json_roundtrip c6form (by decide) c5bytes rfl⟩

theorem crits_forall2 {cm : CatModule} :
    ∀ {cs : List (Str × CriterionResult)} {crits : List (Str × JValue)},
    List.Forall₂ (fun c cj => criterionJson cm c = .ok cj) cs crits →
    crits.map Prod.fst = cs.map Prod.fst ∧
    List.Forall₂ (fun c cj => ∃ text, alookup cm.criteria c.1 = some text ∧
      cj = (c.1, JValue.jobj
        [ (strLit "text", JValue.jstr text),
          (strLit "rating", JValue.jint c.2.rating),
          (strLit "comment", JValue.jstr c.2.comment) ])) cs crits := by
  intro cs crits h
  induction h with
  | nil => exact ⟨rfl, List.Forall₂.nil⟩
  | cons h1 h2 ih =>
    rename_i c cj cs2 crits2
    obtain ⟨text, htext, rfl⟩ := criterionJson_ok_inv h1
    refine ⟨?_, List.Forall₂.cons ⟨text, htext, rfl⟩ ih.2⟩
    rw [List.map_cons, List.map_cons, ih.1]

theorem forall2_mods_detail :
    ∀ {ms : List (Str × ModuleResult)} {mods : List (Str × JValue)},
    (∀ p ∈ ms, ∃ cm, alookup BLI_DATA p.1 = some cm ∧
      p.2.criteria.map Prod.fst = cm.criteria.map Prod.fst) →
    List.Forall₂ (fun p mj => moduleJson p = .ok mj) ms mods →
    mods.map Prod.fst = ms.map Prod.fst ∧
    List.Forall₂ (fun p mj => ∃ cm crits,
      alookup BLI_DATA p.1 = some cm ∧
      mj = (p.1, JValue.jobj
        [ (strLit "title", JValue.jstr cm.title),
          (strLit "criteria", JValue.jobj crits) ]) ∧
      crits.map Prod.fst = cm.criteria.map Prod.fst ∧
      List.Forall₂ (fun c cj => ∃ text, alookup cm.criteria c.1 = some text ∧
        cj = (c.1, JValue.jobj
          [ (strLit "text", JValue.jstr text),
            (strLit "rating", JValue.jint c.2.rating),
            (strLit "comment", JValue.jstr c.2.comment) ])) p.2.criteria crits)
      ms mods := by
  intro ms mods horder h
  revert horder
  induction h with
  | nil =>
    intro _
    exact ⟨rfl, List.Forall₂.nil⟩
  | cons h1 h2 ih =>
    intro horder
    rename_i p mj ms2 mods2
    obtain ⟨cm, crits, hcm, hcrits, rfl⟩ := moduleJson_ok_inv h1
    obtain ⟨cm2, hcm2, hmapeq⟩ := horder p (List.mem_cons_self _ _)
    rw [hcm] at hcm2
    injection hcm2 with hcmeq
    subst hcmeq
    obtain ⟨hcf, hcdetail⟩ := crits_forall2 (exMapM_ok_forall2 hcrits)
    have ihh := ih (fun q hq => horder q (List.mem_cons_of_mem _ hq))
    refine ⟨?_, List.Forall₂.cons
      ⟨cm, crits, hcm, rfl, hcf.trans hmapeq, hcdetail⟩ ihh.2⟩
    rw [List.map_cons, List.map_cons, ihh.1]

/-- C6: the data value export_json serializes (and whose UTF-8 rendering is
the byte output) carries exactly the twelve top-level keys in the fixed
source order — the metadata fields, profile focus, weights, modules,
strengths and next steps, with no per-module or overall score key — the
metadata, focus, weight, strengths and next-steps entries hold the record's
field values verbatim, and each module entry holds exactly its catalog
title and a criteria object whose entries, in the record's criterion order
(equal to catalog order whenever the record's criterion sets follow the
catalog, as init_form builds them), hold exactly the catalog text, the
rating, and the comment of that criterion. -/
theorem C6_structured_content (form : ObservationForm)
    (horder : ∀ p ∈ form.modules, ∃ cm, alookup BLI_DATA p.1 = some cm ∧
      p.2.criteria.map Prod.fst = cm.criteria.map Prod.fst)
    (v : JValue) (h : exportData form = .ok v) :
    export_json form = Except.ok (json_dumps v) ∧
    jKeys v = [strLit "date", strLit "colleague", strLit "subject",
      strLit "grade", strLit "topic", strLit "observer", strLit "school",
      strLit "profile_focus", strLit "weights", strLit "modules",
      strLit "strengths", strLit "next_steps"] ∧
    jGet v (strLit "date") = some (JValue.jstr form.date) ∧
    jGet v (strLit "colleague") = some (JValue.jstr form.colleague) ∧
    jGet v (strLit "subject") = some (JValue.jstr form.subject) ∧
    jGet v (strLit "grade") = some (JValue.jstr form.grade) ∧
    jGet v (strLit "topic") = some (JValue.jstr form.topic) ∧
    jGet v (strLit "observer") = some (JValue.jstr form.observer) ∧
    jGet v (strLit "school") = some (JValue.jstr form.school) ∧
    jGet v (strLit "profile_focus") =
      some (JValue.jarr (form.profile_focus.map JValue.jstr)) ∧
    jGet v (strLit "weights") = some (JValue.jobj
      (form.weights.map (fun p => (p.1, JValue.jdec p.2.m p.2.k)))) ∧
    jGet v (strLit "strengths") = some (JValue.jstr form.strengths) ∧
    jGet v (strLit "next_steps") = some (JValue.jstr form.next_steps) ∧
    (∃ mods, jGet v (strLit "modules") = some (JValue.jobj mods) ∧
      mods.map Prod.fst = form.modules.map Prod.fst ∧
      List.Forall₂ (fun p mj => ∃ cm crits,
        alookup BLI_DATA p.1 = some cm ∧
        mj = (p.1, JValue.jobj
          [ (strLit "title", JValue.jstr cm.title),
            (strLit "criteria", JValue.jobj crits) ]) ∧
        crits.map Prod.fst = cm.criteria.map Prod.fst ∧
        List.Forall₂ (fun c cj => ∃ text, alookup cm.criteria c.1 = some text ∧
          cj = (c.1, JValue.jobj
            [ (strLit "text", JValue.jstr text),
              (strLit "rating", JValue.jint c.2.rating),
              (strLit "comment", JValue.jstr c.2.comment) ]))
          p.2.criteria crits)
        form.modules mods) := by
  obtain ⟨mods, hmods, rfl⟩ := exportData_ok_inv h
  obtain ⟨hmf, hdetail⟩ := forall2_mods_detail horder (exMapM_ok_forall2 hmods)
  refine ⟨?_, rfl, rfl, rfl, rfl, rfl, rfl, rfl, rfl, rfl, rfl, rfl, rfl,
    mods, rfl, hmf, hdetail⟩
  unfold export_json
  rw [h]
  rfl

/-- C6 witness: the populated small record satisfies the catalog-order
premise and its serialized data value has the claimed content, shape and
key order. -/
theorem C6_witness :
    (∀ p ∈ c6form.modules, ∃ cm, alookup BLI_DATA p.1 = some cm ∧
      p.2.criteria.map Prod.fst = cm.criteria.map Prod.fst) ∧
    (export_json c6form = Except.ok (json_dumps c6data) ∧
    jKeys c6data = [strLit "date", strLit "colleague", strLit "subject",
      strLit "grade", strLit "topic", strLit "observer", strLit "school",
      strLit "profile_focus", strLit "weights", strLit "modules",
      strLit "strengths", strLit "next_steps"] ∧
    jGet c6data (strLit "date") = some (JValue.jstr c6form.date) ∧
    jGet c6data (strLit "colleague") = some (JValue.jstr c6form.colleague) ∧
    jGet c6data (strLit "subject") = some (JValue.jstr c6form.subject) ∧
    jGet c6data (strLit "grade") = some (JValue.jstr c6form.grade) ∧
    jGet c6data (strLit "topic") = some (JValue.jstr c6form.topic) ∧
    jGet c6data (strLit "observer") = some (JValue.jstr c6form.observer) ∧
    jGet c6data (strLit "school") = some (JValue.jstr c6form.school) ∧
    jGet c6data (strLit "profile_focus") =
      some (JValue.jarr (c6form.profile_focus.map JValue.jstr)) ∧
    jGet c6data (strLit "weights") = some (JValue.jobj
      (c6form.weights.map (fun p => (p.1, JValue.jdec p.2.m p.2.k)))) ∧
    jGet c6data (strLit "strengths") = some (JValue.jstr c6form.strengths) ∧
    jGet c6data (strLit "next_steps") = some (JValue.jstr c6form.next_steps) ∧
    (∃ mods, jGet c6data (strLit "modules") = some (JValue.jobj mods) ∧
      mods.map Prod.fst = c6form.modules.map Prod.fst ∧
      List.Forall₂ (fun p mj => ∃ cm crits,
        alookup BLI_DATA p.1 = some cm ∧
        mj = (p.1, JValue.jobj
          [ (strLit "title", JValue.jstr cm.title),
            (strLit "criteria", JValue.jobj crits) ]) ∧
        crits.map Prod.fst = cm.criteria.map Prod.fst ∧
        List.Forall₂ (fun c cj => ∃ text, alookup cm.criteria c.1 = some text ∧
          cj = (c.1, JValue.jobj
            [ (strLit "text", JValue.jstr text),
              (strLit "rating", JValue.jint c.2.rating),
              (strLit "comment", JValue.jstr c.2.comment) ]))
          p.2.criteria crits)
        c6form.modules mods)) := by
  have horder : ∀ p ∈ c6form.modules, ∃ cm, alookup BLI_DATA p.1 = some cm ∧
      p.2.criteria.map Prod.fst = cm.criteria.map Prod.fst := by
    intro p hp
    rcases List.mem_singleton.mp hp with rfl
    exact ⟨_, rfl, rfl⟩
  exact ⟨horder, C6_structured_content c6form horder c6data rfl⟩
